import Mathlib

/-!
Verification of the shipwreck data pipeline: the Cleaner
(`clean_shipwrecks.py`, `clean_shipwreck_dataset`) and the Explorer
(`app.py`: `dms_to_decimal`, `load_data`, `compute_summary_stats` and the
sidebar filters).

Modelling conventions of the shallow embedding:
* cell text is a `List Char` (`Str`); a pandas missing value (`NaN`/`NaT`)
  is `none`;
* pandas float64 cells are modelled as exact rationals (`ℚ`); the decimal
  literals occurring in the data are exact in both models;
* a dataframe is a list of rows; each row is a structure with one field
  per column named in the source.
-/

namespace Shipwreck

/-- Cell text is modelled as a list of characters. -/
abbrev Str := List Char

/-! ## Decimal digit strings

Shared infrastructure for the numeric parsers of the pipeline
(`str.extract(r"([0-9.]+)")` + `pd.to_numeric`, the `(\d+)` groups of
`dms_to_decimal`, `pd.to_datetime`) and for the decimal rendering of
numbers in the CSV written by the Cleaner and re-read on a re-clean. -/

/-- Numeric value of a digit character. -/
def digitVal (c : Char) : Nat := c.toNat - 48

/-- Value of a run of digit characters, most significant first — the way
`float`, `pd.to_numeric` and `pd.to_datetime` read a digit group. -/
def digitsVal (l : Str) : Nat := l.foldl (fun a c => 10 * a + digitVal c) 0

/-- Decimal rendering of a natural number, as `astype(str)` / `to_csv`
produce it.  Defined through the fuel-based `Nat.toDigits` so that it
evaluates by kernel reduction; `natToChars_eq` restates it through
`Nat.digits` for the proofs. -/
def natToChars (n : Nat) : Str := Nat.toDigits 10 n

theorem toDigitsCore_eq : ∀ (fuel n : Nat) (acc : List Char), n < fuel →
    Nat.toDigitsCore 10 fuel n acc =
      (if n = 0 then ['0'] else ((Nat.digits 10 n).map Nat.digitChar).reverse) ++ acc := by
  intro fuel
  induction fuel with
  | zero =>
    intro n acc h
    exact absurd h (Nat.not_lt_zero n)
  | succ fuel ih =>
    intro n acc h
    have hstep : Nat.toDigitsCore 10 (fuel + 1) n acc =
        if n / 10 = 0 then Nat.digitChar (n % 10) :: acc
        else Nat.toDigitsCore 10 fuel (n / 10) (Nat.digitChar (n % 10) :: acc) := rfl
    rw [hstep]
    by_cases h0 : n / 10 = 0
    · rw [if_pos h0]
      by_cases hn : n = 0
      · subst hn
        rfl
      · rw [if_neg hn, Nat.digits_def' (by norm_num : (1 : ℕ) < 10) (Nat.pos_of_ne_zero hn),
          h0, Nat.digits_zero]
        simp
    · rw [if_neg h0]
      have hn : n ≠ 0 := by
        intro hcon
        subst hcon
        exact h0 (by norm_num)
      have hlt : n / 10 < fuel :=
        lt_of_lt_of_le (Nat.div_lt_self (Nat.pos_of_ne_zero hn) (by norm_num))
          (Nat.lt_succ_iff.mp h)
      rw [ih (n / 10) (Nat.digitChar (n % 10) :: acc) hlt, if_neg h0,
        Nat.digits_def' (by norm_num : (1 : ℕ) < 10) (Nat.pos_of_ne_zero hn), if_neg hn]
      simp

theorem natToChars_eq (n : Nat) :
    natToChars n = if n = 0 then ['0'] else ((Nat.digits 10 n).map Nat.digitChar).reverse := by
  show Nat.toDigitsCore 10 (n + 1) n [] = _
  rw [toDigitsCore_eq (n + 1) n [] (Nat.lt_succ_self n), List.append_nil]

/-- Left-pad a digit string with zeros to the given width (used for the
fractional part of a decimal and the month/day fields of an ISO date). -/
def padZeros (k : Nat) (l : Str) : Str := List.replicate (k - l.length) '0' ++ l

theorem digitVal_digitChar {d : Nat} (h : d < 10) : digitVal (Nat.digitChar d) = d := by
  interval_cases d <;> decide

theorem isDigit_digitChar {d : Nat} (h : d < 10) : (Nat.digitChar d).isDigit = true := by
  interval_cases d <;> decide

theorem digitsVal_append_digit (l : Str) (c : Char) :
    digitsVal (l ++ [c]) = 10 * digitsVal l + digitVal c := by
  simp [digitsVal, List.foldl_append]

theorem digitsVal_ofDigits (ds : List Nat) (h : ∀ d ∈ ds, d < 10) :
    digitsVal ((ds.map Nat.digitChar).reverse) = Nat.ofDigits 10 ds := by
  induction ds with
  | nil => rfl
  | cons d ds ih =>
    have hd : d < 10 := h d (List.mem_cons_self d ds)
    have hrw : ((d :: ds).map Nat.digitChar).reverse
        = (ds.map Nat.digitChar).reverse ++ [Nat.digitChar d] := by simp
    rw [hrw, digitsVal_append_digit, ih (fun x hx => h x (List.mem_cons_of_mem _ hx)),
      digitVal_digitChar hd, Nat.ofDigits_cons]
    ring

theorem digitsVal_natToChars (n : Nat) : digitsVal (natToChars n) = n := by
  rw [natToChars_eq]
  split
  · subst n; decide
  · rw [digitsVal_ofDigits _ (fun d hd => Nat.digits_lt_base (by norm_num) hd),
      Nat.ofDigits_digits]

theorem natToChars_digits (n : Nat) : ∀ c ∈ natToChars n, c.isDigit = true := by
  rw [natToChars_eq]
  split
  · intro c hc
    simp only [List.mem_singleton] at hc
    subst hc; decide
  · intro c hc
    rw [List.mem_reverse, List.mem_map] at hc
    obtain ⟨d, hd, rfl⟩ := hc
    exact isDigit_digitChar (Nat.digits_lt_base (by norm_num) hd)

theorem natToChars_ne_nil (n : Nat) : natToChars n ≠ [] := by
  rw [natToChars_eq]
  split
  · simp
  · simp only [ne_eq, List.reverse_eq_nil_iff, List.map_eq_nil_iff]
    exact Nat.digits_ne_nil_iff_ne_zero.mpr (by assumption)

theorem digitsVal_cons_zero (l : Str) : digitsVal ('0' :: l) = digitsVal l := by
  show List.foldl _ (10 * 0 + digitVal '0') l = List.foldl _ 0 l
  have h0 : 10 * 0 + digitVal '0' = 0 := by decide
  rw [h0]

theorem digitsVal_padZeros (k : Nat) (l : Str) : digitsVal (padZeros k l) = digitsVal l := by
  unfold padZeros
  induction k - l.length with
  | zero => simp
  | succ m ih =>
    rw [List.replicate_succ, List.cons_append, digitsVal_cons_zero]
    exact ih

theorem length_padZeros (k : Nat) (l : Str) (h : l.length ≤ k) :
    (padZeros k l).length = k := by
  simp only [padZeros, List.length_append, List.length_replicate]
  omega

theorem padZeros_digits (k : Nat) (l : Str) (h : ∀ c ∈ l, c.isDigit = true) :
    ∀ c ∈ padZeros k l, c.isDigit = true := by
  intro c hc
  rcases List.mem_append.mp hc with h1 | h2
  · rw [List.eq_of_mem_replicate h1]; decide
  · exact h c h2

theorem padZeros_ne_nil {k : Nat} {l : Str} (h : l ≠ []) : padZeros k l ≠ [] := by
  simp [padZeros, h]

theorem natToChars_length_le {n k : Nat} (hk : 1 ≤ k) (h : n < 10 ^ k) :
    (natToChars n).length ≤ k := by
  rw [natToChars_eq]
  split
  · simpa using hk
  · simp only [List.length_reverse, List.length_map]
    rw [Nat.digits_len 10 n (by norm_num) (by assumption)]
    have := Nat.log_lt_of_lt_pow (by assumption) h
    omega

/-! ## takeWhile / dropWhile helpers -/

theorem takeWhile_append_stop {p : Char → Bool} (xs : Str) (y : Char) (ys : Str)
    (hxs : ∀ c ∈ xs, p c = true) (hy : p y = false) :
    (xs ++ y :: ys).takeWhile p = xs := by
  induction xs with
  | nil => simp [List.takeWhile_cons, hy]
  | cons x xs ih =>
    have hx : p x = true := hxs x (List.mem_cons_self _ _)
    simp [List.takeWhile_cons, hx, ih (fun c hc => hxs c (List.mem_cons_of_mem _ hc))]

theorem dropWhile_append_stop {p : Char → Bool} (xs : Str) (y : Char) (ys : Str)
    (hxs : ∀ c ∈ xs, p c = true) (hy : p y = false) :
    (xs ++ y :: ys).dropWhile p = y :: ys := by
  induction xs with
  | nil => simp [List.dropWhile_cons, hy]
  | cons x xs ih =>
    have hx : p x = true := hxs x (List.mem_cons_self _ _)
    simp only [List.cons_append, List.dropWhile_cons, hx]
    exact ih (fun c hc => hxs c (List.mem_cons_of_mem _ hc))

theorem takeWhile_all {p : Char → Bool} (l : Str) (h : ∀ c ∈ l, p c = true) :
    l.takeWhile p = l := by
  induction l with
  | nil => rfl
  | cons x xs ih =>
    have hx : p x = true := h x (List.mem_cons_self _ _)
    simp [List.takeWhile_cons, hx, ih (fun c hc => h c (List.mem_cons_of_mem _ hc))]

theorem dropWhile_all {p : Char → Bool} (l : Str) (h : ∀ c ∈ l, p c = true) :
    l.dropWhile p = [] := by
  induction l with
  | nil => rfl
  | cons x xs ih =>
    have hx : p x = true := h x (List.mem_cons_self _ _)
    simp only [List.dropWhile_cons, hx]
    exact ih (fun c hc => h c (List.mem_cons_of_mem _ hc))

theorem dropWhile_head_false {p : Char → Bool} (l : Str)
    (h : ∀ c, l.head? = some c → p c = false) : l.dropWhile p = l := by
  cases l with
  | nil => rfl
  | cons x xs =>
    have hx : p x = false := h x rfl
    simp [List.dropWhile_cons, hx]

theorem head?_dropWhile_false {p : Char → Bool} (l : Str) :
    ∀ c, (l.dropWhile p).head? = some c → p c = false := by
  induction l with
  | nil => intro c hc; simp at hc
  | cons x xs ih =>
    intro c hc
    by_cases hx : p x
    · rw [List.dropWhile_cons, if_pos hx] at hc
      exact ih c hc
    · rw [List.dropWhile_cons, if_neg hx] at hc
      simp only [List.head?_cons, Option.some.injEq] at hc
      subst hc
      exact Bool.of_not_eq_true hx

theorem dropWhile_idem {p : Char → Bool} (l : Str) :
    (l.dropWhile p).dropWhile p = l.dropWhile p :=
  dropWhile_head_false _ (head?_dropWhile_false l)

theorem dropWhile_suffix {p : Char → Bool} (l : Str) : l.dropWhile p <:+ l := by
  induction l with
  | nil => exact List.suffix_rfl
  | cons x xs ih =>
    by_cases hx : p x
    · rw [List.dropWhile_cons, if_pos hx]
      exact ih.trans (List.suffix_cons x xs)
    · rw [List.dropWhile_cons, if_neg hx]

theorem getLast?_of_suffix {s l : Str} (h : s <:+ l) (hs : s ≠ []) :
    s.getLast? = l.getLast? := by
  obtain ⟨t, rfl⟩ := h
  rw [List.getLast?_append_of_ne_nil _ hs]

/-! ## Unsigned decimal literals

`pd.to_numeric(errors="coerce")` and Python `float` on the substrings
extracted by `str.extract(r"([0-9.]+)")`: a non-empty string over the
alphabet `[0-9.]` with at most one dot and at least one digit parses to
`⟨integer part⟩ + ⟨fractional part⟩ / 10^⟨fractional digits⟩`; anything
else (e.g. `"1.2.3"`, `"..."`) coerces to missing. -/

/-- A character of the class `[0-9.]` in the extraction regexes of
`clean_shipwrecks.py` (lines 30 and 42). -/
def isNumChar (c : Char) : Bool := c.isDigit || c == '.'

/-- Parse an unsigned decimal literal (digits with at most one dot, at
least one digit), as Python `float` does once signs and exponents are
out of the picture; failure is `none`.  The value
`⟨int part⟩ + ⟨frac part⟩/10^⟨frac digits⟩` is built with one `mkRat` so
that it evaluates by kernel reduction; `floatParse_some` below restates
it in the usual form. -/
def floatParse (l : Str) : Option ℚ :=
  if l ≠ [] ∧ l.all isNumChar = true ∧ l.count '.' ≤ 1 ∧ l.any Char.isDigit = true then
    let ip := l.takeWhile (fun c => c ≠ '.')
    let fp := (l.dropWhile (fun c => c ≠ '.')).drop 1
    some (mkRat (digitsVal ip * 10 ^ fp.length + digitsVal fp) (10 ^ fp.length))
  else none

/-- `pd.to_numeric(errors="coerce")` on one cell (`clean_shipwrecks.py`
lines 32, 44, 51, 52): an optional sign followed by a decimal literal;
a missing cell or any other string coerces to missing.  (Exponent forms
such as `"1e5"` are not produced anywhere in this pipeline and are not
modelled.) -/
def to_numeric (c : Option Str) : Option ℚ :=
  match c with
  | none => none
  | some [] => floatParse []
  | some (c0 :: r) =>
    if c0 = '-' then (floatParse r).map (fun q => -q)
    else if c0 = '+' then floatParse r
    else floatParse (c0 :: r)

/-- `str.replace(",", "", regex=False)` (lines 29 and 41). -/
def stripCommas (l : Str) : Str := l.filter (fun c => c ≠ ',')

/-- `str.replace("$", "", regex=False)` (line 40). -/
def stripDollars (l : Str) : Str := l.filter (fun c => c ≠ '$')

/-- `str.extract(r"([0-9.]+)")` on one cell (lines 30 and 42): the first
maximal run of characters in `[0-9.]`, or missing when there is none. -/
def extractNum (l : Str) : Option Str :=
  let r := (l.dropWhile (fun c => !(isNumChar c))).takeWhile isNumChar
  if r = [] then none else some r

/-- The numeric-column transform of `clean_shipwrecks.py` lines 25–32:
`astype(str)` (a missing cell becomes `"nan"`, which has no `[0-9.]`
run), strip commas, extract the first `[0-9.]+` run, coerce to a number. -/
def numericCell (c : Option Str) : Option ℚ :=
  match c with
  | none => none
  | some s => (extractNum (stripCommas s)).bind floatParse

/-- The money-column transform of lines 34–44: as `numericCell`, with
every `$` removed first. -/
def moneyCell (c : Option Str) : Option ℚ :=
  match c with
  | none => none
  | some s => (extractNum (stripCommas (stripDollars s))).bind floatParse

/-! ## Whitespace stripping and null markers -/

/-- `str.strip()` on one cell (`clean_shipwrecks.py` line 10): remove
leading and trailing whitespace. -/
def trimChars (l : Str) : Str :=
  ((l.dropWhile Char.isWhitespace).reverse.dropWhile Char.isWhitespace).reverse

/-- The null markers of `df.replace(["", " ", "  ", "N/A", "na", "NA"],
np.nan)` (line 13). -/
def nullMarkers : List Str :=
  ["".toList, " ".toList, "  ".toList, "N/A".toList, "na".toList, "NA".toList]

/-- Lines 10 and 13 on one cell: strip whitespace, then send any null
marker to missing. -/
def textCell (c : Option Str) : Option Str :=
  match c with
  | none => none
  | some s =>
    let t := trimChars s
    if t ∈ nullMarkers then none else some t

/-! ## Dates

`pd.to_datetime(..., errors="coerce")` (line 16), modelled on ISO
`year-month-day` digit groups: out-of-range or otherwise unparseable text
coerces to missing.  (pandas accepts further input formats and checks
calendar validity more finely; no claim depends on those. What matters
here is that the dates the Cleaner itself writes out are re-parsed to the
same value.) -/

structure DateYMD where
  year : Nat
  month : Nat
  day : Nat
deriving DecidableEq

/-- The step `⟨leading digit run⟩-⟨rest⟩` shared by the hyphenated
parsers (`pd.to_datetime` on ISO dates and the `(\d+)-` groups of the
DMS regex): the leading digit run together with what follows the next
character when that character is a hyphen. -/
def dashSplit (l : Str) : Option (Str × Str) :=
  match l.dropWhile Char.isDigit with
  | c :: r => if c = '-' then some (l.takeWhile Char.isDigit, r) else none
  | [] => none

/-- Parse `⟨digits⟩-⟨digits⟩-⟨digits⟩` as a date, requiring the fields to
be in range (pandas `Timestamp`s cannot represent years beyond four
digits). -/
def parseDateStr (l : Str) : Option DateYMD :=
  (dashSplit l).bind (fun p1 =>
    (dashSplit p1.2).bind (fun p2 =>
      let y := p1.1
      let m := p2.1
      let d := p2.2.takeWhile Char.isDigit
      if y ≠ [] ∧ m ≠ [] ∧ d ≠ [] ∧ p2.2.dropWhile Char.isDigit = [] ∧
          1 ≤ digitsVal y ∧ digitsVal y ≤ 9999 ∧ 1 ≤ digitsVal m ∧ digitsVal m ≤ 12 ∧
          1 ≤ digitsVal d ∧ digitsVal d ≤ 31 then
        some ⟨digitsVal y, digitsVal m, digitsVal d⟩
      else none))

/-- `pd.to_datetime(..., errors="coerce")` on one cell. -/
def dateCell (c : Option Str) : Option DateYMD := c.bind parseDateStr

/-! ## The DMS coordinate parser of `app.py` (lines 40–50) -/

/-- `re.match(r"(\d+)-(\d+)-(\d+)\s*([NSEW]?)", s)`: three integer digit
groups separated by hyphens, optional whitespace, then an optional
hemisphere letter; anything may follow.  Returns the three group values
and the captured hemisphere letter. -/
def dmsMatch (l : Str) : Option (Nat × Nat × Nat × Option Char) :=
  (dashSplit l).bind (fun p1 =>
    (dashSplit p1.2).bind (fun p2 =>
      let d1 := p1.1
      let d2 := p2.1
      let d3 := p2.2.takeWhile Char.isDigit
      if d1 = [] ∨ d2 = [] ∨ d3 = [] then none
      else
        let r4 := (p2.2.dropWhile Char.isDigit).dropWhile Char.isWhitespace
        let dir : Option Char :=
          match r4.head? with
          | some c => if c = 'N' ∨ c = 'S' ∨ c = 'E' ∨ c = 'W' then some c else none
          | none => none
        some (digitsVal d1, digitsVal d2, digitsVal d3, dir)))

/-- The decimal value `deg + min/60 + sec/3600` of line 47, built with
one `mkRat` (see `dmsRat_eq`) so that it evaluates by kernel
reduction. -/
def dmsRat (d m s : Nat) : ℚ := mkRat (d * 3600 + m * 60 + s) 3600

/-- `dms_to_decimal` of `app.py` lines 40–50: null input gives `None`, a
failed match gives `None`, otherwise `deg + min/60 + sec/3600`, negated
when the hemisphere letter is S or W. -/
def dms_to_decimal (coord : Option Str) : Option ℚ :=
  match coord with
  | none => none
  | some l =>
    match dmsMatch l with
    | none => none
    | some (d, m, s, dir) =>
      let dec : ℚ := dmsRat d m s
      some (if dir = some 'S' ∨ dir = some 'W' then -dec else dec)

/-! ## Rows and the cleaning pipeline

One field per column that `clean_shipwrecks.py` / `app.py` name.  The raw
CSV yields string cells (`Option Str`, `none` for an empty cell); `YEAR`
is an integer column as `read_csv` infers it for the year data (the
Cleaner never converts it — note `"YEAR"` is absent from `numeric_cols` —
it only sorts by it). -/

structure RawRow where
  shipName : Option Str
  vesselType : Option Str
  causeOfLoss : Option Str
  master : Option Str
  year : Option Int
  dateLost : Option Str
  yearBuilt : Option Str
  length : Option Str
  beam : Option Str
  draft : Option Str
  grossTonnage : Option Str
  netTonnage : Option Str
  crew : Option Str
  pass : Option Str
  livesLost : Option Str
  shipValue : Option Str
  cargoValue : Option Str
  latitude : Option Str
  longitude : Option Str
  latitudeBackup : Option Str
  longitudeBackup : Option Str
deriving DecidableEq

/-- A cleaned row: text columns trimmed and null-normalized, `DATE LOST`
a date, the `numeric_cols` and money columns numbers, plus the derived
`LAT`/`LON`. -/
structure CleanRow where
  shipName : Option Str
  vesselType : Option Str
  causeOfLoss : Option Str
  master : Option Str
  year : Option Int
  dateLost : Option DateYMD
  yearBuilt : Option ℚ
  length : Option ℚ
  beam : Option ℚ
  draft : Option ℚ
  grossTonnage : Option ℚ
  netTonnage : Option ℚ
  crew : Option ℚ
  pass : Option ℚ
  livesLost : Option ℚ
  shipValue : Option ℚ
  cargoValue : Option ℚ
  latitude : Option Str
  longitude : Option Str
  latitudeBackup : Option Str
  longitudeBackup : Option Str
  lat : Option ℚ
  lon : Option ℚ
deriving DecidableEq

/-- `Series.combine_first` on two cells (lines 48–49): the first value
where present, else the second. -/
def combineFirst (a b : Option Str) : Option Str :=
  match a with
  | some x => some x
  | none => b

/-- Lines 10–52 of `clean_shipwreck_dataset` on one row: strip/null-
normalize every cell, parse `DATE LOST`, convert the numeric and money
columns, and resolve `LAT`/`LON` from the primary coordinate with
fallback to the backup, coerced to numbers. -/
def cleanRow (r : RawRow) : CleanRow :=
  { shipName := textCell r.shipName
    vesselType := textCell r.vesselType
    causeOfLoss := textCell r.causeOfLoss
    master := textCell r.master
    year := r.year
    dateLost := dateCell (textCell r.dateLost)
    yearBuilt := numericCell (textCell r.yearBuilt)
    length := numericCell (textCell r.length)
    beam := numericCell (textCell r.beam)
    draft := numericCell (textCell r.draft)
    grossTonnage := numericCell (textCell r.grossTonnage)
    netTonnage := numericCell (textCell r.netTonnage)
    crew := numericCell (textCell r.crew)
    pass := numericCell (textCell r.pass)
    livesLost := numericCell (textCell r.livesLost)
    shipValue := moneyCell (textCell r.shipValue)
    cargoValue := moneyCell (textCell r.cargoValue)
    latitude := textCell r.latitude
    longitude := textCell r.longitude
    latitudeBackup := textCell r.latitudeBackup
    longitudeBackup := textCell r.longitudeBackup
    lat := to_numeric (combineFirst (textCell r.latitude) (textCell r.latitudeBackup))
    lon := to_numeric (combineFirst (textCell r.longitude) (textCell r.longitudeBackup)) }

/-- The depth filter `df[df["DRAFT"] <= 81]` (line 54) on one row: in
pandas a comparison with `NaN` is `False`, so a missing draft fails the
filter. -/
def draftOk (r : CleanRow) : Bool :=
  match r.draft with
  | some d => decide (d ≤ 81)
  | none => false

/-- `df.drop_duplicates()` (line 57): remove later exact duplicates,
keeping the first occurrence of each row.  (`List.dedup` keeps last
occurrences, so it is applied to the reversed list.) -/
def drop_duplicates {α : Type} [DecidableEq α] (l : List α) : List α :=
  (l.reverse.dedup).reverse

/-- The `sort_values(by="YEAR")` key order (line 60): ascending years,
missing years placed last (`na_position="last"`). -/
def yearLE (a b : Option Int) : Bool :=
  match a, b with
  | some x, some y => decide (x ≤ y)
  | some _, none => true
  | none, some _ => false
  | none, none => true

def rowLE (a b : CleanRow) : Prop := yearLE a.year b.year = true

instance : DecidableRel rowLE :=
  fun a b => inferInstanceAs (Decidable (yearLE a.year b.year = true))

instance : IsTotal CleanRow rowLE := by
  constructor
  intro a b
  unfold rowLE yearLE
  cases a.year <;> cases b.year <;> simp [Int.le_total]

instance : IsTrans CleanRow rowLE := by
  constructor
  intro a b c
  unfold rowLE yearLE
  cases a.year <;> cases b.year <;> cases c.year <;> simp
  exact fun h1 h2 => le_trans h1 h2

/-- `df.sort_values(by="YEAR")` (line 60): reorder the rows so that they
are sorted under `yearLE` on the `YEAR` column.  (pandas uses an
unstable quicksort; the claims under verification only concern the key
order, row membership and multiplicity, which any `yearLE`-sort
realizes.) -/
def sortByYear (l : List CleanRow) : List CleanRow := List.insertionSort rowLE l

/-- `clean_shipwreck_dataset` (lines 5–62) on an in-memory table: clean
each row, apply the depth filter, drop exact duplicates, sort by year. -/
def clean_shipwreck_dataset (rows : List RawRow) : List CleanRow :=
  sortByYear (drop_duplicates ((rows.map cleanRow).filter draftOk))

/-! ## The Explorer (`app.py`) -/

/-- `load_data` (lines 55–60) derives the map column `lat` by applying
`dms_to_decimal` to the `LATITUDE` column alone (no backup fallback);
`lon` likewise from `LONGITUDE`. -/
def load_data_lat (r : CleanRow) : Option ℚ := dms_to_decimal r.latitude

def load_data_lon (r : CleanRow) : Option ℚ := dms_to_decimal r.longitude

/-- `compute_summary_stats` (lines 72–77): row count, earliest year,
latest year.  `Series.min`/`Series.max` skip missing values and give
`NaN` on an empty or all-missing column. -/
def compute_summary_stats (data : List CleanRow) : Nat × Option Int × Option Int :=
  (data.length, (data.filterMap CleanRow.year).min?, (data.filterMap CleanRow.year).max?)

/-- The depth-ceiling filter `filtered_df[filtered_df["DRAFT"] <=
max_depth]` (line 108): again `NaN <= max_depth` is `False` in pandas,
so rows with a missing draft are excluded. -/
def depthCeilingFilter (data : List CleanRow) (maxDepth : ℚ) : List CleanRow :=
  data.filter (fun r =>
    match r.draft with
    | some d => decide (d ≤ maxDepth)
    | none => false)

/-! ## CSV output of the Cleaner

`cleaned.to_csv(...)` followed by `pd.read_csv` on a re-clean.  Float
cells are written with Python's shortest repr: a plain decimal inside
`[1e-4, 1e16)` (and for 0), scientific notation such as `1e-05` or
`1.5e+20` outside; dates are written in ISO form; text cells are
written verbatim, but the re-reading `read_csv` converts its default
NA markers (`"null"`, `"nan"`, `"N/A"`, …) and empty cells back to
missing.  Both the scientific-notation path and the NA-marker path
break the Cleaner's idempotence on real data — see
`C8_counterexample`. -/

/-- Bounded search for the first exponent `k` with `d ∣ 10^k`, starting
at `k` with the given fuel. -/
def kOfAux (d : Nat) : Nat → Nat → Nat
  | k, 0 => k
  | k, fuel + 1 => if 10 ^ k % d == 0 then k else kOfAux d (k + 1) fuel

/-- Smallest exponent `k` with `d ∣ 10^k` (searched up to `d`, which
suffices for the denominators the parsers produce, see
`dvd_ten_pow_kOf`). -/
def kOf (d : Nat) : Nat := kOfAux d 0 (d + 1)

/-- Decimal rendering of a non-negative rational with a power-of-ten
denominator, with at least one fractional digit (`12.0`, `1234.5`, …)
— the way the float columns appear in the CSV inside the plain repr
range. -/
def printNumPlain (q : ℚ) : Str :=
  let k := max 1 (kOf q.den)
  let n := q.num.toNat * (10 ^ k / q.den)
  natToChars (n / 10 ^ k) ++ '.' :: padZeros k (natToChars (n % 10 ^ k))

/-- Scientific-notation rendering of the value `n / 10^k` (`n ≠ 0`):
the shortest mantissa (digits of `n`, trailing zeros removed, a dot
after the first digit when more remain), then `e`, the exponent's
sign, and the exponent padded to two digits — `1e-05`, `1.5e+20`, as
Python's shortest float repr writes them. -/
def sciChars (n k : Nat) : Str :=
  let ds := ((natToChars n).reverse.dropWhile (fun c => c = '0')).reverse
  let e : Int := ((natToChars n).length : Int) - 1 - (k : Int)
  (match ds with
    | [] => ['0']
    | d :: rest => if rest = [] then [d] else d :: '.' :: rest) ++
    'e' :: (if e < 0 then '-' else '+') :: padZeros 2 (natToChars e.natAbs)

/-- The decimal exponent with which `q` is written: `⌊log10 q⌋` for the
positive finite decimals of this pipeline. -/
def printExp (q : ℚ) : Int :=
  ((natToChars (q.num.toNat * (10 ^ max 1 (kOf q.den) / q.den))).length : Int) - 1 -
    ((max 1 (kOf q.den) : ℕ) : Int)

/-- One float cell as pandas `to_csv` writes it: Python's float repr
uses a plain decimal for 0 and for magnitudes in `[1e-4, 1e16)`, and
scientific notation outside that range. -/
def printNum (q : ℚ) : Str :=
  if q.num.toNat * (10 ^ max 1 (kOf q.den) / q.den) ≠ 0 ∧
      (printExp q ≤ -5 ∨ 16 ≤ printExp q) then
    sciChars (q.num.toNat * (10 ^ max 1 (kOf q.den) / q.den)) (max 1 (kOf q.den))
  else printNumPlain q

def printNumCell (c : Option ℚ) : Option Str := c.map printNum

/-- The default `na_values` of `pd.read_csv` (the empty cell is handled
separately): strings that a re-read reinterprets as missing even
though the Cleaner wrote them as ordinary text. -/
def readCsvNA : List Str :=
  ["#N/A".toList, "#N/A N/A".toList, "#NA".toList, "-1.#IND".toList, "-1.#QNAN".toList,
   "-NaN".toList, "-nan".toList, "1.#IND".toList, "1.#QNAN".toList, "<NA>".toList,
   "N/A".toList, "NA".toList, "NULL".toList, "NaN".toList, "None".toList,
   "n/a".toList, "nan".toList, "null".toList]

/-- One written cell as the re-reading `pd.read_csv` delivers it: empty
cells and default NA markers become missing, everything else arrives
verbatim. -/
def readCell (c : Option Str) : Option Str :=
  match c with
  | none => none
  | some s => if s = [] ∨ s ∈ readCsvNA then none else some s

/-- ISO rendering `YYYY-MM-DD` of a date cell in the written CSV. -/
def printDate (d : DateYMD) : Str :=
  padZeros 4 (natToChars d.year) ++ '-' ::
    (padZeros 2 (natToChars d.month) ++ '-' :: padZeros 2 (natToChars d.day))

def printDateCell (c : Option DateYMD) : Option Str := c.map printDate

/-- One row of the CSV the Cleaner writes, as the re-reading `read_csv`
hands it to a re-clean: every written cell passes through `readCell`'s
NA-marker conversion.  The derived `LAT`/`LON` columns are also written
out, but a re-clean overwrites them from `LATITUDE`/`LONGITUDE` (lines
48–52) without reading them, so they do not appear among the raw
fields. -/
def printRow (r : CleanRow) : RawRow :=
  { shipName := readCell r.shipName
    vesselType := readCell r.vesselType
    causeOfLoss := readCell r.causeOfLoss
    master := readCell r.master
    year := r.year
    dateLost := readCell (printDateCell r.dateLost)
    yearBuilt := readCell (printNumCell r.yearBuilt)
    length := readCell (printNumCell r.length)
    beam := readCell (printNumCell r.beam)
    draft := readCell (printNumCell r.draft)
    grossTonnage := readCell (printNumCell r.grossTonnage)
    netTonnage := readCell (printNumCell r.netTonnage)
    crew := readCell (printNumCell r.crew)
    pass := readCell (printNumCell r.pass)
    livesLost := readCell (printNumCell r.livesLost)
    shipValue := readCell (printNumCell r.shipValue)
    cargoValue := readCell (printNumCell r.cargoValue)
    latitude := readCell r.latitude
    longitude := readCell r.longitude
    latitudeBackup := readCell r.latitudeBackup
    longitudeBackup := readCell r.longitudeBackup }

/-! ## Values of the numeric parsers -/

/-- The `mkRat` decimal form equals the textbook value. -/
theorem mkRat_decimal (a b k : Nat) :
    (mkRat (a * 10 ^ k + b) (10 ^ k) : ℚ) = (a : ℚ) + (b : ℚ) / (10 : ℚ) ^ k := by
  rw [Rat.mkRat_eq_divInt, Rat.divInt_eq_div]
  push_cast
  field_simp

theorem dmsRat_eq (d m s : Nat) :
    dmsRat d m s = (d : ℚ) + (m : ℚ) / 60 + (s : ℚ) / 3600 := by
  unfold dmsRat
  rw [Rat.mkRat_eq_divInt, Rat.divInt_eq_div]
  push_cast
  field_simp
  ring

/-- The shape every numeric cell of the pipeline has: non-negative with
a power-of-ten denominator (an exact finite decimal). -/
def NumOk (q : ℚ) : Prop := 0 ≤ q ∧ ∃ j, q.den ∣ 10 ^ j

theorem mkRat_nonneg_of_num {n : Int} (hn : 0 ≤ n) (d : Nat) : 0 ≤ (mkRat n d : ℚ) := by
  rw [Rat.mkRat_eq_divInt, Rat.divInt_eq_div]
  apply div_nonneg
  · exact_mod_cast hn
  · positivity

theorem mkRat_den_dvd (n : Int) (d : Nat) : (mkRat n d).den ∣ d := by
  have := Rat.den_dvd n (d : Int)
  rw [← Rat.mkRat_eq_divInt] at this
  exact_mod_cast this

theorem floatParse_numOk {l : Str} {q : ℚ} (h : floatParse l = some q) : NumOk q := by
  by_cases H : l ≠ [] ∧ l.all isNumChar = true ∧ l.count '.' ≤ 1 ∧ l.any Char.isDigit = true
  · unfold floatParse at h
    rw [if_pos H] at h
    simp only [Option.some.injEq] at h
    subst h
    exact ⟨mkRat_nonneg_of_num (by positivity) _, _, mkRat_den_dvd _ _⟩
  · unfold floatParse at h
    rw [if_neg H] at h
    exact absurd h (by simp)

/-- Positive form of `floatParse`: on a well-formed literal the value is
`⟨int part⟩ + ⟨frac part⟩/10^⟨frac length⟩`. -/
theorem floatParse_some {l : Str}
    (h : l ≠ [] ∧ l.all isNumChar = true ∧ l.count '.' ≤ 1 ∧ l.any Char.isDigit = true) :
    floatParse l =
      some ((digitsVal (l.takeWhile (fun c => c ≠ '.')) : ℚ) +
        (digitsVal ((l.dropWhile (fun c => c ≠ '.')).drop 1) : ℚ) /
          (10 : ℚ) ^ ((l.dropWhile (fun c => c ≠ '.')).drop 1).length) := by
  unfold floatParse
  rw [if_pos h]
  simp only [mkRat_decimal]

/-! ## Power-of-ten divisors and the decimal printer -/

theorem dvd_ten_pow_self {d j : Nat} (hd : d ≠ 0) (h : d ∣ 10 ^ j) : d ∣ 10 ^ d := by
  have h25 : d ∣ 2 ^ j * 5 ^ j := by
    rw [← Nat.mul_pow]
    exact h
  obtain ⟨u, v, hu, hv, huv⟩ := Nat.dvd_mul.mp h25
  obtain ⟨a, _, rfl⟩ := (Nat.dvd_prime_pow Nat.prime_two).mp hu
  obtain ⟨b, _, rfl⟩ := (Nat.dvd_prime_pow Nat.prime_five).mp hv
  subst huv
  have ha : a ≤ 2 ^ a * 5 ^ b :=
    le_of_lt (lt_of_lt_of_le (Nat.lt_two_pow a) (Nat.le_mul_of_pos_right _ (by positivity)))
  have hb : b ≤ 2 ^ a * 5 ^ b :=
    le_of_lt (lt_of_lt_of_le (Nat.lt_pow_self (by norm_num) b) (Nat.le_mul_of_pos_left _ (by positivity)))
  calc 2 ^ a * 5 ^ b ∣ 2 ^ (2 ^ a * 5 ^ b) * 5 ^ (2 ^ a * 5 ^ b) :=
      mul_dvd_mul (pow_dvd_pow 2 ha) (pow_dvd_pow 5 hb)
  _ = 10 ^ (2 ^ a * 5 ^ b) := by
      rw [← Nat.mul_pow]

theorem kOfAux_dvd {d : Nat} :
    ∀ (fuel k : Nat), (∃ j, k ≤ j ∧ j < k + fuel ∧ d ∣ 10 ^ j) → d ∣ 10 ^ kOfAux d k fuel := by
  intro fuel
  induction fuel with
  | zero =>
    rintro k ⟨j, h1, h2, _⟩
    omega
  | succ fuel ih =>
    rintro k ⟨j, h1, h2, h3⟩
    show d ∣ 10 ^ (if 10 ^ k % d == 0 then k else kOfAux d (k + 1) fuel)
    by_cases hk : 10 ^ k % d = 0
    · rw [if_pos (by simpa using hk)]
      exact Nat.dvd_iff_mod_eq_zero.mpr hk
    · rw [if_neg (by simpa using hk)]
      apply ih
      rcases Nat.eq_or_lt_of_le h1 with rfl | hlt
      · exact absurd (Nat.dvd_iff_mod_eq_zero.mp h3) hk
      · exact ⟨j, hlt, by omega, h3⟩

theorem dvd_ten_pow_kOf {d : Nat} (hd : d ≠ 0) (h : ∃ j, d ∣ 10 ^ j) : d ∣ 10 ^ kOf d := by
  obtain ⟨j, hj⟩ := h
  have hdd : d ∣ 10 ^ d := dvd_ten_pow_self hd hj
  exact kOfAux_dvd (d + 1) 0 ⟨d, Nat.zero_le d, by omega, hdd⟩

/-! ## Character classes of the printed decimals -/

theorem isDigit_isNumChar {c : Char} (h : c.isDigit = true) : isNumChar c = true := by
  simp [isNumChar, h]

theorem isDigit_ne_dot {c : Char} (h : c.isDigit = true) : c ≠ '.' := by
  intro hc
  subst hc
  exact absurd h (by decide)

theorem numChar_not_ws {c : Char} (h : isNumChar c = true) : c.isWhitespace = false := by
  cases hw : c.isWhitespace
  · rfl
  · exfalso
    have hcases : c = ' ' ∨ c = '\t' ∨ c = '\r' ∨ c = '\n' := by
      have hw2 := hw
      unfold Char.isWhitespace at hw2
      simp only [Bool.or_eq_true, decide_eq_true_eq] at hw2
      tauto
    rcases hcases with rfl | rfl | rfl | rfl <;> exact absurd h (by decide)

theorem numChar_ne_comma {c : Char} (h : isNumChar c = true) : c ≠ ',' := by
  intro hc
  subst hc
  exact absurd h (by decide)

theorem numChar_ne_dollar {c : Char} (h : isNumChar c = true) : c ≠ '$' := by
  intro hc
  subst hc
  exact absurd h (by decide)

/-! ## Round trip of the decimal printer -/

theorem printNumPlain_eq (q : ℚ) :
    printNumPlain q =
      natToChars ((q.num.toNat * (10 ^ max 1 (kOf q.den) / q.den)) / 10 ^ max 1 (kOf q.den)) ++
        '.' :: padZeros (max 1 (kOf q.den))
          (natToChars ((q.num.toNat * (10 ^ max 1 (kOf q.den) / q.den)) % 10 ^ max 1 (kOf q.den))) :=
  rfl

theorem floatParse_printNumPlain {q : ℚ} (hq : NumOk q) : floatParse (printNumPlain q) = some q := by
  obtain ⟨h0, hj⟩ := hq
  set k := max 1 (kOf q.den) with hkdef
  have hk1 : 1 ≤ k := le_max_left 1 _
  have hpk : (0 : ℕ) < 10 ^ k := by positivity
  have hden : q.den ∣ 10 ^ k :=
    (dvd_ten_pow_kOf q.den_nz hj).trans (pow_dvd_pow 10 (le_max_right 1 _))
  set n := q.num.toNat * (10 ^ k / q.den) with hndef
  set ip := natToChars (n / 10 ^ k) with hipdef
  set fp := padZeros k (natToChars (n % 10 ^ k)) with hfpdef
  have hprint : printNumPlain q = ip ++ '.' :: fp := printNumPlain_eq q
  have hipd : ∀ ch ∈ ip, ch.isDigit = true := by
    rw [hipdef]; exact natToChars_digits _
  have hfpd : ∀ ch ∈ fp, ch.isDigit = true := by
    rw [hfpdef]; exact padZeros_digits _ _ (natToChars_digits _)
  have hfplen : fp.length = k := by
    rw [hfpdef]
    exact length_padZeros _ _ (natToChars_length_le hk1 (Nat.mod_lt _ hpk))
  have hfpne : fp ≠ [] := by
    intro hcon
    rw [hcon] at hfplen
    simp at hfplen
    omega
  have htake : (ip ++ '.' :: fp).takeWhile (fun c => c ≠ '.') = ip :=
    takeWhile_append_stop _ _ _
      (fun ch hch => by simp [isDigit_ne_dot (hipd ch hch)]) (by decide)
  have hdrop : (ip ++ '.' :: fp).dropWhile (fun c => c ≠ '.') = '.' :: fp :=
    dropWhile_append_stop _ _ _
      (fun ch hch => by simp [isDigit_ne_dot (hipd ch hch)]) (by decide)
  have hne : (ip ++ '.' :: fp) ≠ [] := by simp
  have hall : (ip ++ '.' :: fp).all isNumChar = true := by
    rw [List.all_eq_true]
    intro ch hch
    rcases List.mem_append.mp hch with h1 | h2
    · exact isDigit_isNumChar (hipd ch h1)
    · rcases List.mem_cons.mp h2 with rfl | h3
      · decide
      · exact isDigit_isNumChar (hfpd ch h3)
  have hcount : (ip ++ '.' :: fp).count '.' ≤ 1 := by
    rw [List.count_append, List.count_cons_self]
    have h1 : ip.count '.' = 0 :=
      List.count_eq_zero.mpr (fun hmem => isDigit_ne_dot (hipd _ hmem) rfl)
    have h2 : fp.count '.' = 0 :=
      List.count_eq_zero.mpr (fun hmem => isDigit_ne_dot (hfpd _ hmem) rfl)
    omega
  have hany : (ip ++ '.' :: fp).any Char.isDigit = true := by
    rw [List.any_eq_true]
    rcases hfp : fp with _ | ⟨c0, fp'⟩
    · exact absurd hfp hfpne
    · refine ⟨c0, by simp [hfp], ?_⟩
      apply hfpd
      rw [hfp]
      exact List.mem_cons_self _ _
  rw [hprint, floatParse_some ⟨hne, hall, hcount, hany⟩, htake, hdrop]
  simp only [List.drop_succ_cons, List.drop_zero]
  rw [hfplen]
  have hipval : digitsVal ip = n / 10 ^ k := by
    rw [hipdef, digitsVal_natToChars]
  have hfpval : digitsVal fp = n % 10 ^ k := by
    rw [hfpdef, digitsVal_padZeros, digitsVal_natToChars]
  rw [hipval, hfpval]
  obtain ⟨c, hc⟩ := hden
  have hcdiv : 10 ^ k / q.den = c := by
    rw [hc]
    exact Nat.mul_div_cancel_left c (Nat.pos_of_ne_zero q.den_nz)
  have hnum : ((q.num.toNat : ℤ)) = q.num := Int.toNat_of_nonneg (Rat.num_nonneg.mpr h0)
  have hden0 : ((q.den : ℚ)) ≠ 0 := Nat.cast_ne_zero.mpr q.den_nz
  have hqd : q * (q.den : ℚ) = (q.num : ℚ) := by
    have h := Rat.num_div_den q
    calc q * (q.den : ℚ) = ((q.num : ℚ) / (q.den : ℚ)) * (q.den : ℚ) := by rw [h]
    _ = (q.num : ℚ) := div_mul_cancel₀ _ hden0
  have hq10 : (n : ℚ) = q * (10 : ℚ) ^ k := by
    have h10 : ((10 : ℚ)) ^ k = ((q.den : ℚ)) * (c : ℚ) := by
      exact_mod_cast congrArg (fun z : ℕ => (z : ℚ)) hc
    have htn : ((q.num.toNat : ℚ)) = ((q.num : ℚ)) := by
      exact_mod_cast congrArg (fun z : ℤ => (z : ℚ)) hnum
    have hnq : (n : ℚ) = ((q.num : ℚ)) * (c : ℚ) := by
      rw [hndef, hcdiv]
      push_cast
      rw [htn]
    rw [hnq, h10, ← mul_assoc, hqd]
  have h10q : ((10 : ℚ) ^ k) ≠ 0 := by positivity
  have hsplit : ((n / 10 ^ k : ℕ) : ℚ) + ((n % 10 ^ k : ℕ) : ℚ) / (10 : ℚ) ^ k = q := by
    have hmod : ((n / 10 ^ k) * 10 ^ k + n % 10 ^ k : ℕ) = n := Nat.div_add_mod' n (10 ^ k)
    have key : ((n / 10 ^ k : ℕ) : ℚ) * (10 : ℚ) ^ k + ((n % 10 ^ k : ℕ) : ℚ) = (n : ℚ) := by
      exact_mod_cast congrArg (fun z : ℕ => (z : ℚ)) hmod
    have hqval : q = (n : ℚ) / (10 : ℚ) ^ k := by
      rw [hq10]
      field_simp
    rw [hqval, ← key]
    field_simp
  rw [hsplit]

/-! ## `textCell` on printed values, and its idempotence -/

theorem trimChars_eq_self {l : Str} (h : ∀ c ∈ l, c.isWhitespace = false) :
    trimChars l = l := by
  unfold trimChars
  have h1 : l.dropWhile Char.isWhitespace = l :=
    dropWhile_head_false _ (fun c hc => h c (List.mem_of_mem_head? hc))
  rw [h1]
  have h2 : l.reverse.dropWhile Char.isWhitespace = l.reverse :=
    dropWhile_head_false _ (fun c hc => h c (List.mem_reverse.mp (List.mem_of_mem_head? hc)))
  rw [h2, List.reverse_reverse]

theorem mem_nullMarkers_chars {l : Str} (hl : l ∈ nullMarkers) :
    ∀ c ∈ l, c ∈ [' ', 'N', '/', 'A', 'n', 'a'] := by
  simp only [nullMarkers, List.mem_cons, List.not_mem_nil, or_false] at hl
  rcases hl with rfl | rfl | rfl | rfl | rfl | rfl <;> decide

theorem not_marker_of_dot {l : Str} (h : '.' ∈ l) : l ∉ nullMarkers :=
  fun hl => absurd (mem_nullMarkers_chars hl '.' h) (by decide)

theorem not_marker_of_dash {l : Str} (h : '-' ∈ l) : l ∉ nullMarkers :=
  fun hl => absurd (mem_nullMarkers_chars hl '-' h) (by decide)

theorem printNumPlain_numChar (q : ℚ) : ∀ c ∈ printNumPlain q, isNumChar c = true := by
  rw [printNumPlain_eq]
  intro c hc
  rcases List.mem_append.mp hc with h1 | h2
  · exact isDigit_isNumChar (natToChars_digits _ _ h1)
  · rcases List.mem_cons.mp h2 with rfl | h3
    · decide
    · exact isDigit_isNumChar (padZeros_digits _ _ (natToChars_digits _) _ h3)

theorem dot_mem_printNumPlain (q : ℚ) : '.' ∈ printNumPlain q := by
  rw [printNumPlain_eq]
  exact List.mem_append.mpr (Or.inr (List.mem_cons_self _ _))

theorem textCell_printNumPlain (q : ℚ) : textCell (some (printNumPlain q)) = some (printNumPlain q) := by
  have ht : trimChars (printNumPlain q) = printNumPlain q :=
    trimChars_eq_self (fun c hc => numChar_not_ws (printNumPlain_numChar q c hc))
  show (if trimChars (printNumPlain q) ∈ nullMarkers then none else some (trimChars (printNumPlain q)))
      = some (printNumPlain q)
  rw [ht, if_neg (not_marker_of_dot (dot_mem_printNumPlain q))]

/-! ## Round trip of the numeric and money cells -/

theorem extractNum_all {l : Str} (hne : l ≠ []) (h : ∀ c ∈ l, isNumChar c = true) :
    extractNum l = some l := by
  unfold extractNum
  have h1 : l.dropWhile (fun c => !(isNumChar c)) = l :=
    dropWhile_head_false _ (fun c hc => by simp [h c (List.mem_of_mem_head? hc)])
  rw [h1, takeWhile_all l h, if_neg hne]

theorem stripCommas_eq_self {l : Str} (h : ∀ c ∈ l, isNumChar c = true) :
    stripCommas l = l :=
  List.filter_eq_self.mpr (fun c hc => by simp [numChar_ne_comma (h c hc)])

theorem stripDollars_eq_self {l : Str} (h : ∀ c ∈ l, isNumChar c = true) :
    stripDollars l = l :=
  List.filter_eq_self.mpr (fun c hc => by simp [numChar_ne_dollar (h c hc)])

theorem numericCell_numOk {c : Option Str} {q : ℚ} (h : numericCell c = some q) : NumOk q := by
  unfold numericCell at h
  rcases c with _ | s
  · exact absurd h (by simp)
  · rcases Option.bind_eq_some.mp h with ⟨e, _, hf⟩
    exact floatParse_numOk hf

theorem moneyCell_numOk {c : Option Str} {q : ℚ} (h : moneyCell c = some q) : NumOk q := by
  unfold moneyCell at h
  rcases c with _ | s
  · exact absurd h (by simp)
  · rcases Option.bind_eq_some.mp h with ⟨e, _, hf⟩
    exact floatParse_numOk hf

theorem numericCell_printNumPlain {q : ℚ} (hq : NumOk q) :
    numericCell (some (printNumPlain q)) = some q := by
  have hne : printNumPlain q ≠ [] := List.ne_nil_of_mem (dot_mem_printNumPlain q)
  show (extractNum (stripCommas (printNumPlain q))).bind floatParse = some q
  rw [stripCommas_eq_self (printNumPlain_numChar q), extractNum_all hne (printNumPlain_numChar q)]
  rw [Option.some_bind]
  exact floatParse_printNumPlain hq

theorem moneyCell_printNumPlain {q : ℚ} (hq : NumOk q) :
    moneyCell (some (printNumPlain q)) = some q := by
  have hne : printNumPlain q ≠ [] := List.ne_nil_of_mem (dot_mem_printNumPlain q)
  show (extractNum (stripCommas (stripDollars (printNumPlain q)))).bind floatParse = some q
  rw [stripDollars_eq_self (printNumPlain_numChar q), stripCommas_eq_self (printNumPlain_numChar q),
    extractNum_all hne (printNumPlain_numChar q)]
  rw [Option.some_bind]
  exact floatParse_printNumPlain hq

/-! ## The repr threshold: plain versus scientific -/

/-- Value range in which Python's float repr — and hence `to_csv` —
writes a plain decimal: zero, or a value in `[1e-4, 1e16)`. -/
def PlainDecimal (q : ℚ) : Prop := q = 0 ∨ (mkRat 1 10000 ≤ q ∧ q < 10 ^ 16)

instance (q : ℚ) : Decidable (PlainDecimal q) :=
  inferInstanceAs (Decidable (_ ∨ _))

/-- A numeric cell that, when present, `to_csv` writes as a plain
decimal. -/
def cellPlain : Option ℚ → Prop
  | none => True
  | some q => PlainDecimal q

instance : (c : Option ℚ) → Decidable (cellPlain c)
  | none => isTrue trivial
  | some q => inferInstanceAs (Decidable (PlainDecimal q))

/-- A text cell that, when present, is not a `read_csv` default NA
marker. -/
def cellTextOk : Option Str → Prop
  | none => True
  | some s => s ∉ readCsvNA

instance : (c : Option Str) → Decidable (cellTextOk c)
  | none => isTrue trivial
  | some s => inferInstanceAs (Decidable (s ∉ readCsvNA))

/-- The integer the printer renders equals `q * 10^k` for the printer's
chosen `k`. -/
theorem printNum_n_val {q : ℚ} (h0 : 0 ≤ q) (hj : ∃ j, q.den ∣ 10 ^ j) :
    ((q.num.toNat * (10 ^ max 1 (kOf q.den) / q.den) : ℕ) : ℚ)
      = q * (10 : ℚ) ^ max 1 (kOf q.den) := by
  have hden : q.den ∣ 10 ^ max 1 (kOf q.den) :=
    (dvd_ten_pow_kOf q.den_nz hj).trans (pow_dvd_pow 10 (le_max_right 1 _))
  obtain ⟨c, hc⟩ := hden
  have hcdiv : 10 ^ max 1 (kOf q.den) / q.den = c := by
    rw [hc]
    exact Nat.mul_div_cancel_left c (Nat.pos_of_ne_zero q.den_nz)
  have hnum : ((q.num.toNat : ℤ)) = q.num := Int.toNat_of_nonneg (Rat.num_nonneg.mpr h0)
  have hden0 : ((q.den : ℚ)) ≠ 0 := Nat.cast_ne_zero.mpr q.den_nz
  have hqd : q * (q.den : ℚ) = (q.num : ℚ) := by
    have h := Rat.num_div_den q
    calc q * (q.den : ℚ) = ((q.num : ℚ) / (q.den : ℚ)) * (q.den : ℚ) := by rw [h]
    _ = (q.num : ℚ) := div_mul_cancel₀ _ hden0
  have h10 : ((10 : ℚ)) ^ max 1 (kOf q.den) = ((q.den : ℚ)) * (c : ℚ) := by
    exact_mod_cast congrArg (fun z : ℕ => (z : ℚ)) hc
  have htn : ((q.num.toNat : ℚ)) = ((q.num : ℚ)) := by
    exact_mod_cast congrArg (fun z : ℤ => (z : ℚ)) hnum
  have hnq : ((q.num.toNat * (10 ^ max 1 (kOf q.den) / q.den) : ℕ) : ℚ)
      = ((q.num : ℚ)) * (c : ℚ) := by
    rw [hcdiv]
    push_cast
    rw [htn]
  rw [hnq, h10, ← mul_assoc, hqd]

/-- Inside the plain range the repr exponent is neither `≤ -5` nor
`≥ 16`. -/
theorem sci_cond_false {q : ℚ} (h0 : 0 ≤ q) {n k : Nat}
    (hval : (n : ℚ) = q * (10 : ℚ) ^ k) (hp : PlainDecimal q) (hne : n ≠ 0) :
    ¬(((natToChars n).length : Int) - 1 - (k : Int) ≤ -5 ∨
      16 ≤ ((natToChars n).length : Int) - 1 - (k : Int)) := by
  rcases hp with rfl | ⟨hlo, hhi⟩
  · exfalso
    apply hne
    have : (n : ℚ) = 0 := by rw [hval]; ring
    exact_mod_cast this
  intro hcase
  have hL : (natToChars n).length = Nat.log 10 n + 1 := by
    rw [natToChars_eq, if_neg hne, List.length_reverse, List.length_map,
      Nat.digits_len 10 n (by norm_num) hne]
  rw [hL] at hcase
  have hub : n < 10 ^ (Nat.log 10 n + 1) := Nat.lt_pow_succ_log_self (by norm_num) n
  have hlb : 10 ^ Nat.log 10 n ≤ n := Nat.pow_log_le_self 10 hne
  have hqpow : (0 : ℚ) < (10 : ℚ) ^ k := by positivity
  rcases hcase with hsci | hsci
  · -- repr exponent ≤ -5, i.e. log + 5 ≤ k: then q < 1e-4
    obtain ⟨m, hm⟩ : ∃ m, k = (Nat.log 10 n + 1) + 4 + m :=
      ⟨k - (Nat.log 10 n + 5), by omega⟩
    have hcast : q * (10 : ℚ) ^ k < (10 : ℚ) ^ (Nat.log 10 n + 1) := by
      rw [← hval]
      exact_mod_cast hub
    rw [hm, pow_add, pow_add] at hcast
    have hX1 : (1 : ℚ) ≤ (10 : ℚ) ^ m := by
      have hn : (1 : ℕ) ≤ 10 ^ m := Nat.one_le_pow _ _ (by norm_num)
      exact_mod_cast hn
    have hmk : mkRat 1 10000 * (10 : ℚ) ^ 4 = 1 := by
      rw [Rat.mkRat_eq_divInt, Rat.divInt_eq_div]
      norm_num
    have hq4 : (1 : ℚ) ≤ q * (10 : ℚ) ^ 4 := by
      calc (1 : ℚ) = mkRat 1 10000 * (10 : ℚ) ^ 4 := hmk.symm
      _ ≤ q * (10 : ℚ) ^ 4 := mul_le_mul_of_nonneg_right hlo (by positivity)
    have hone : (1 : ℚ) ≤ (q * (10 : ℚ) ^ 4) * (10 : ℚ) ^ m := by
      calc (1 : ℚ) = 1 * 1 := by norm_num
      _ ≤ (q * (10 : ℚ) ^ 4) * (10 : ℚ) ^ m :=
          mul_le_mul hq4 hX1 (by norm_num) (by linarith)
    have hbig : (10 : ℚ) ^ (Nat.log 10 n + 1)
        ≤ q * ((10 : ℚ) ^ (Nat.log 10 n + 1) * (10 : ℚ) ^ 4 * (10 : ℚ) ^ m) := by
      have hpos : (0 : ℚ) < (10 : ℚ) ^ (Nat.log 10 n + 1) := by positivity
      calc (10 : ℚ) ^ (Nat.log 10 n + 1) = 1 * (10 : ℚ) ^ (Nat.log 10 n + 1) :=
          (one_mul _).symm
      _ ≤ ((q * (10 : ℚ) ^ 4) * (10 : ℚ) ^ m) * (10 : ℚ) ^ (Nat.log 10 n + 1) :=
          mul_le_mul_of_nonneg_right hone (le_of_lt hpos)
      _ = q * ((10 : ℚ) ^ (Nat.log 10 n + 1) * (10 : ℚ) ^ 4 * (10 : ℚ) ^ m) := by ring
    exact absurd hcast (not_lt.mpr hbig)
  · -- repr exponent ≥ 16, i.e. log ≥ k + 16: then q ≥ 1e16
    obtain ⟨m, hm⟩ : ∃ m, Nat.log 10 n = k + 16 + m := ⟨Nat.log 10 n - (k + 16), by omega⟩
    have hcast : (10 : ℚ) ^ Nat.log 10 n ≤ q * (10 : ℚ) ^ k := by
      rw [← hval]
      exact_mod_cast hlb
    rw [hm, pow_add, pow_add] at hcast
    have hX1 : (1 : ℚ) ≤ (10 : ℚ) ^ m := by
      have hn : (1 : ℕ) ≤ 10 ^ m := Nat.one_le_pow _ _ (by norm_num)
      exact_mod_cast hn
    have hbig : (10 : ℚ) ^ 16 * (10 : ℚ) ^ k ≤ q * (10 : ℚ) ^ k := by
      calc (10 : ℚ) ^ 16 * (10 : ℚ) ^ k = ((10 : ℚ) ^ k * (10 : ℚ) ^ 16) * 1 := by ring
      _ ≤ ((10 : ℚ) ^ k * (10 : ℚ) ^ 16) * (10 : ℚ) ^ m :=
          mul_le_mul_of_nonneg_left hX1 (by positivity)
      _ ≤ q * (10 : ℚ) ^ k := hcast
    have h16q : (10 : ℚ) ^ 16 ≤ q := by
      have := hbig
      exact le_of_mul_le_mul_right this hqpow
    exact absurd hhi (not_lt.mpr h16q)

/-- Inside the plain range `printNum` is the plain decimal printer. -/
theorem printNum_eq_plain {q : ℚ} (hq : NumOk q) (hp : PlainDecimal q) :
    printNum q = printNumPlain q := by
  obtain ⟨h0, hj⟩ := hq
  unfold printNum
  rw [if_neg]
  rintro ⟨hne, hcase⟩
  unfold printExp at hcase
  exact sci_cond_false h0 (printNum_n_val h0 hj) hp hne hcase

/-! ## What the re-read delivers -/

theorem readCell_some {s : Str} (h1 : s ≠ []) (h2 : s ∉ readCsvNA) :
    readCell (some s) = some s := by
  show (if s = [] ∨ s ∈ readCsvNA then none else some s) = some s
  rw [if_neg]
  rintro (h | h)
  · exact h1 h
  · exact h2 h

theorem not_readCsvNA_of_numChar {l : Str} (h : ∀ c ∈ l, isNumChar c = true) :
    l ∉ readCsvNA := by
  intro hl
  simp only [readCsvNA, List.mem_cons, List.not_mem_nil, or_false] at hl
  rcases hl with rfl | rfl | rfl | rfl | rfl | rfl | rfl | rfl | rfl | rfl | rfl | rfl | rfl |
    rfl | rfl | rfl | rfl | rfl <;>
    first
      | exact absurd (h '#' (by decide)) (by decide)
      | exact absurd (h '-' (by decide)) (by decide)
      | exact absurd (h '<' (by decide)) (by decide)
      | exact absurd (h 'N' (by decide)) (by decide)
      | exact absurd (h 'n' (by decide)) (by decide)

theorem not_readCsvNA_of_digit_dash {l : Str} (h : ∀ c ∈ l, c.isDigit = true ∨ c = '-') :
    l ∉ readCsvNA := by
  intro hl
  simp only [readCsvNA, List.mem_cons, List.not_mem_nil, or_false] at hl
  rcases hl with rfl | rfl | rfl | rfl | rfl | rfl | rfl | rfl | rfl | rfl | rfl | rfl | rfl |
    rfl | rfl | rfl | rfl | rfl <;>
    first
      | exact absurd (h '#' (by decide)) (by decide)
      | exact absurd (h '<' (by decide)) (by decide)
      | exact absurd (h 'N' (by decide)) (by decide)
      | exact absurd (h 'n' (by decide)) (by decide)

/-! ## Round trip of the numeric and money cells (plain range) -/

theorem numericCell_roundtrip (c : Option Str) (hp : cellPlain (numericCell c)) :
    numericCell (textCell (readCell (printNumCell (numericCell c)))) = numericCell c := by
  rcases hv : numericCell c with _ | q
  · rfl
  · rw [hv] at hp
    have hq : NumOk q := numericCell_numOk hv
    have hpr : printNum q = printNumPlain q := printNum_eq_plain hq hp
    show numericCell (textCell (readCell (some (printNum q)))) = some q
    rw [hpr, readCell_some (List.ne_nil_of_mem (dot_mem_printNumPlain q))
        (not_readCsvNA_of_numChar (printNumPlain_numChar q)),
      textCell_printNumPlain]
    exact numericCell_printNumPlain hq

theorem moneyCell_roundtrip (c : Option Str) (hp : cellPlain (moneyCell c)) :
    moneyCell (textCell (readCell (printNumCell (moneyCell c)))) = moneyCell c := by
  rcases hv : moneyCell c with _ | q
  · rfl
  · rw [hv] at hp
    have hq : NumOk q := moneyCell_numOk hv
    have hpr : printNum q = printNumPlain q := printNum_eq_plain hq hp
    show moneyCell (textCell (readCell (some (printNum q)))) = some q
    rw [hpr, readCell_some (List.ne_nil_of_mem (dot_mem_printNumPlain q))
        (not_readCsvNA_of_numChar (printNumPlain_numChar q)),
      textCell_printNumPlain]
    exact moneyCell_printNumPlain hq

/-! ## Idempotence of `textCell` -/

theorem trimChars_idem (l : Str) : trimChars (trimChars l) = trimChars l := by
  set A := l.dropWhile Char.isWhitespace with hA
  set B := A.reverse.dropWhile Char.isWhitespace with hB
  have htr : trimChars l = B.reverse := rfl
  by_cases hBne : B = []
  · rw [htr, hBne]
    rfl
  · have hhead : ∀ c, B.reverse.head? = some c → c.isWhitespace = false := by
      intro c hc
      rw [List.head?_reverse] at hc
      rw [getLast?_of_suffix (dropWhile_suffix A.reverse) hBne, List.getLast?_reverse] at hc
      exact head?_dropWhile_false l c hc
    rw [htr]
    show ((B.reverse.dropWhile Char.isWhitespace).reverse.dropWhile Char.isWhitespace).reverse
        = B.reverse
    rw [dropWhile_head_false _ hhead, List.reverse_reverse]
    have h2 : B.dropWhile Char.isWhitespace = B :=
      dropWhile_head_false _ (fun c hc => head?_dropWhile_false A.reverse c hc)
    rw [h2]

theorem textCell_idem (c : Option Str) : textCell (textCell c) = textCell c := by
  rcases c with _ | s
  · rfl
  · have hinner : textCell (some s)
        = if trimChars s ∈ nullMarkers then none else some (trimChars s) := rfl
    rw [hinner]
    by_cases hm : trimChars s ∈ nullMarkers
    · rw [if_pos hm]
      rfl
    · rw [if_neg hm]
      show (if trimChars (trimChars s) ∈ nullMarkers then none
          else some (trimChars (trimChars s))) = some (trimChars s)
      rw [trimChars_idem, if_neg hm]

/-! ## Round trip of the date cell -/

theorem dashSplit_append {xs rest : Str} (hxs : ∀ c ∈ xs, c.isDigit = true) :
    dashSplit (xs ++ '-' :: rest) = some (xs, rest) := by
  unfold dashSplit
  rw [dropWhile_append_stop _ _ _ hxs (by decide)]
  show (if '-' = '-' then some ((xs ++ '-' :: rest).takeWhile Char.isDigit, rest) else none)
      = some (xs, rest)
  rw [if_pos rfl, takeWhile_append_stop _ _ _ hxs (by decide)]

theorem printDate_parts (dd : DateYMD) :
    printDate dd = padZeros 4 (natToChars dd.year) ++ '-' ::
      (padZeros 2 (natToChars dd.month) ++ '-' :: padZeros 2 (natToChars dd.day)) := rfl

theorem parseDateStr_bounds {l : Str} {dd : DateYMD} (h : parseDateStr l = some dd) :
    1 ≤ dd.year ∧ dd.year ≤ 9999 ∧ 1 ≤ dd.month ∧ dd.month ≤ 12 ∧
      1 ≤ dd.day ∧ dd.day ≤ 31 := by
  unfold parseDateStr at h
  rcases Option.bind_eq_some.mp h with ⟨p1, _, h1⟩
  rcases Option.bind_eq_some.mp h1 with ⟨p2, _, h2⟩
  simp only [] at h2
  by_cases hc : p1.1 ≠ [] ∧ p2.1 ≠ [] ∧ p2.2.takeWhile Char.isDigit ≠ [] ∧
      p2.2.dropWhile Char.isDigit = [] ∧
      1 ≤ digitsVal p1.1 ∧ digitsVal p1.1 ≤ 9999 ∧
      1 ≤ digitsVal p2.1 ∧ digitsVal p2.1 ≤ 12 ∧
      1 ≤ digitsVal (p2.2.takeWhile Char.isDigit) ∧
      digitsVal (p2.2.takeWhile Char.isDigit) ≤ 31
  · rw [if_pos hc] at h2
    obtain ⟨_, _, _, _, b1, b2, b3, b4, b5, b6⟩ := hc
    cases h2
    exact ⟨b1, b2, b3, b4, b5, b6⟩
  · rw [if_neg hc] at h2
    exact absurd h2 (by simp)

theorem parseDateStr_printDate {dd : DateYMD}
    (hb : 1 ≤ dd.year ∧ dd.year ≤ 9999 ∧ 1 ≤ dd.month ∧ dd.month ≤ 12 ∧
      1 ≤ dd.day ∧ dd.day ≤ 31) :
    parseDateStr (printDate dd) = some dd := by
  obtain ⟨h1, h2, h3, h4, h5, h6⟩ := hb
  have hyd : ∀ c ∈ padZeros 4 (natToChars dd.year), c.isDigit = true :=
    padZeros_digits _ _ (natToChars_digits _)
  have hmd : ∀ c ∈ padZeros 2 (natToChars dd.month), c.isDigit = true :=
    padZeros_digits _ _ (natToChars_digits _)
  have hdd : ∀ c ∈ padZeros 2 (natToChars dd.day), c.isDigit = true :=
    padZeros_digits _ _ (natToChars_digits _)
  have hyv : digitsVal (padZeros 4 (natToChars dd.year)) = dd.year := by
    rw [digitsVal_padZeros, digitsVal_natToChars]
  have hmv : digitsVal (padZeros 2 (natToChars dd.month)) = dd.month := by
    rw [digitsVal_padZeros, digitsVal_natToChars]
  have hdv : digitsVal (padZeros 2 (natToChars dd.day)) = dd.day := by
    rw [digitsVal_padZeros, digitsVal_natToChars]
  unfold parseDateStr
  rw [printDate_parts, dashSplit_append hyd, Option.some_bind, dashSplit_append hmd,
    Option.some_bind]
  simp only [takeWhile_all _ hdd, dropWhile_all _ hdd]
  rw [if_pos ?side]
  case side =>
    refine ⟨padZeros_ne_nil (natToChars_ne_nil _), padZeros_ne_nil (natToChars_ne_nil _),
      padZeros_ne_nil (natToChars_ne_nil _), trivial, ?_, ?_, ?_, ?_, ?_, ?_⟩ <;>
      simp only [hyv, hmv, hdv] <;> omega
  rw [hyv, hmv, hdv]

theorem printDate_chars (dd : DateYMD) :
    ∀ c ∈ printDate dd, c.isDigit = true ∨ c = '-' := by
  rw [printDate_parts]
  intro c hc
  rcases List.mem_append.mp hc with hy | hrest
  · exact Or.inl (padZeros_digits _ _ (natToChars_digits _) c hy)
  · rcases List.mem_cons.mp hrest with rfl | hrest2
    · exact Or.inr rfl
    · rcases List.mem_append.mp hrest2 with hm | hrest3
      · exact Or.inl (padZeros_digits _ _ (natToChars_digits _) c hm)
      · rcases List.mem_cons.mp hrest3 with rfl | hd
        · exact Or.inr rfl
        · exact Or.inl (padZeros_digits _ _ (natToChars_digits _) c hd)

theorem dash_mem_printDate (dd : DateYMD) : '-' ∈ printDate dd := by
  rw [printDate_parts]
  exact List.mem_append.mpr (Or.inr (List.mem_cons_self _ _))

theorem textCell_printDate (dd : DateYMD) :
    textCell (some (printDate dd)) = some (printDate dd) := by
  have ht : trimChars (printDate dd) = printDate dd := by
    apply trimChars_eq_self
    intro c hc
    rcases printDate_chars dd c hc with hdig | rfl
    · exact numChar_not_ws (isDigit_isNumChar hdig)
    · decide
  show (if trimChars (printDate dd) ∈ nullMarkers then none
      else some (trimChars (printDate dd))) = some (printDate dd)
  rw [ht, if_neg (not_marker_of_dash (dash_mem_printDate dd))]

theorem printDate_ne_nil (dd : DateYMD) : printDate dd ≠ [] :=
  List.ne_nil_of_mem (dash_mem_printDate dd)

theorem dateCell_roundtrip (c : Option Str) :
    dateCell (textCell (readCell (printDateCell (dateCell c)))) = dateCell c := by
  rcases hv : dateCell c with _ | dd
  · rfl
  · have hb : 1 ≤ dd.year ∧ dd.year ≤ 9999 ∧ 1 ≤ dd.month ∧ dd.month ≤ 12 ∧
        1 ≤ dd.day ∧ dd.day ≤ 31 := by
      unfold dateCell at hv
      rcases Option.bind_eq_some.mp hv with ⟨s, _, hs⟩
      exact parseDateStr_bounds hs
    show dateCell (textCell (readCell (some (printDate dd)))) = some dd
    rw [readCell_some (printDate_ne_nil dd)
        (not_readCsvNA_of_digit_dash (printDate_chars dd)),
      textCell_printDate]
    show parseDateStr (printDate dd) = some dd
    exact parseDateStr_printDate hb

/-! ## Round trip of the text cells -/

theorem textCell_some_not_marker {c : Option Str} {s : Str} (h : textCell c = some s) :
    s ∉ nullMarkers := by
  rcases c with _ | t
  · exact absurd h (by simp [textCell])
  · have hinner : textCell (some t)
        = if trimChars t ∈ nullMarkers then none else some (trimChars t) := rfl
    rw [hinner] at h
    by_cases hm : trimChars t ∈ nullMarkers
    · rw [if_pos hm] at h
      exact absurd h (by simp)
    · rw [if_neg hm] at h
      simp only [Option.some.injEq] at h
      rw [← h]
      exact hm

theorem textCell_some_ne_nil {c : Option Str} {s : Str} (h : textCell c = some s) :
    s ≠ [] := by
  intro hnil
  apply textCell_some_not_marker h
  rw [hnil]
  decide

theorem textCell_readCell_roundtrip (c : Option Str) (h : cellTextOk (textCell c)) :
    textCell (readCell (textCell c)) = textCell c := by
  rcases hv : textCell c with _ | s
  · rfl
  · rw [hv] at h
    rw [readCell_some (textCell_some_ne_nil hv) h]
    have hidem := textCell_idem c
    rw [hv] at hidem
    exact hidem

/-! ## Row round trip and pipeline structure -/

/-- Every cell of a cleaned row survives the CSV write/read: numeric
cells are in the plain-decimal range and text cells are not `read_csv`
NA markers. -/
def RowPrintsPlainly (r : CleanRow) : Prop :=
  cellPlain r.yearBuilt ∧ cellPlain r.length ∧ cellPlain r.beam ∧ cellPlain r.draft ∧
    cellPlain r.grossTonnage ∧ cellPlain r.netTonnage ∧ cellPlain r.crew ∧
    cellPlain r.pass ∧ cellPlain r.livesLost ∧ cellPlain r.shipValue ∧
    cellPlain r.cargoValue ∧ cellTextOk r.shipName ∧ cellTextOk r.vesselType ∧
    cellTextOk r.causeOfLoss ∧ cellTextOk r.master ∧ cellTextOk r.latitude ∧
    cellTextOk r.longitude ∧ cellTextOk r.latitudeBackup ∧ cellTextOk r.longitudeBackup

instance (r : CleanRow) : Decidable (RowPrintsPlainly r) :=
  inferInstanceAs (Decidable (_ ∧ _))

theorem cleanRow_printRow (r : RawRow) (h : RowPrintsPlainly (cleanRow r)) :
    cleanRow (printRow (cleanRow r)) = cleanRow r := by
  obtain ⟨h1, h2, h3, h4, h5, h6, h7, h8, h9, h10, h11, t1, t2, t3, t4, t5, t6, t7, t8⟩ := h
  simp only [cleanRow, printRow]
  rw [numericCell_roundtrip _ h1, numericCell_roundtrip _ h2, numericCell_roundtrip _ h3,
    numericCell_roundtrip _ h4, numericCell_roundtrip _ h5, numericCell_roundtrip _ h6,
    numericCell_roundtrip _ h7, numericCell_roundtrip _ h8, numericCell_roundtrip _ h9,
    moneyCell_roundtrip _ h10, moneyCell_roundtrip _ h11, dateCell_roundtrip,
    textCell_readCell_roundtrip _ t1, textCell_readCell_roundtrip _ t2,
    textCell_readCell_roundtrip _ t3, textCell_readCell_roundtrip _ t4,
    textCell_readCell_roundtrip _ t5, textCell_readCell_roundtrip _ t6,
    textCell_readCell_roundtrip _ t7, textCell_readCell_roundtrip _ t8]

theorem drop_duplicates_nodup {α : Type} [DecidableEq α] (l : List α) :
    (drop_duplicates l).Nodup := by
  unfold drop_duplicates
  rw [List.nodup_reverse]
  exact List.nodup_dedup _

theorem drop_duplicates_eq_self {α : Type} [DecidableEq α] {l : List α} (h : l.Nodup) :
    drop_duplicates l = l := by
  unfold drop_duplicates
  rw [List.Nodup.dedup (List.nodup_reverse.mpr h), List.reverse_reverse]

theorem mem_drop_duplicates {α : Type} [DecidableEq α] {a : α} {l : List α} :
    a ∈ drop_duplicates l ↔ a ∈ l := by
  unfold drop_duplicates
  rw [List.mem_reverse, List.mem_dedup, List.mem_reverse]

theorem mem_clean {rows : List RawRow} {r : CleanRow} :
    r ∈ clean_shipwreck_dataset rows ↔ r ∈ rows.map cleanRow ∧ draftOk r = true := by
  unfold clean_shipwreck_dataset sortByYear
  rw [(List.perm_insertionSort rowLE _).mem_iff, mem_drop_duplicates, List.mem_filter]

theorem clean_nodup (rows : List RawRow) : (clean_shipwreck_dataset rows).Nodup := by
  unfold clean_shipwreck_dataset sortByYear
  exact ((List.perm_insertionSort rowLE _).symm).nodup (drop_duplicates_nodup _)

theorem clean_sorted (rows : List RawRow) :
    List.Sorted rowLE (clean_shipwreck_dataset rows) :=
  List.sorted_insertionSort _ _

theorem clean_reclean (rows : List RawRow)
    (h : ∀ r ∈ clean_shipwreck_dataset rows, RowPrintsPlainly r) :
    clean_shipwreck_dataset ((clean_shipwreck_dataset rows).map printRow)
      = clean_shipwreck_dataset rows := by
  have hmem : ∀ r ∈ clean_shipwreck_dataset rows,
      r ∈ rows.map cleanRow ∧ draftOk r = true := fun r hr => mem_clean.mp hr
  have hmap : ((clean_shipwreck_dataset rows).map printRow).map cleanRow
      = clean_shipwreck_dataset rows := by
    rw [List.map_map]
    have hid : ∀ r ∈ clean_shipwreck_dataset rows, (cleanRow ∘ printRow) r = id r := by
      intro r hr
      obtain ⟨hin, _⟩ := hmem r hr
      rcases List.mem_map.mp hin with ⟨raw, _, rfl⟩
      exact cleanRow_printRow raw (h _ hr)
    rw [List.map_congr_left hid, List.map_id]
  show sortByYear (drop_duplicates
      ((((clean_shipwreck_dataset rows).map printRow).map cleanRow).filter draftOk))
    = clean_shipwreck_dataset rows
  rw [hmap, List.filter_eq_self.mpr (fun r hr => (hmem r hr).2),
    drop_duplicates_eq_self (clean_nodup rows)]
  exact List.Sorted.insertionSort_eq (clean_sorted rows)

theorem draftOk_iff {r : CleanRow} :
    draftOk r = true ↔ ∃ d, r.draft = some d ∧ d ≤ 81 := by
  unfold draftOk
  rcases hd : r.draft with _ | d <;> simp

/-! ## DMS strings and `to_numeric` -/

theorem dashSplit_inv {l : Str} {a b : Str} (h : dashSplit l = some (a, b)) :
    l.takeWhile Char.isDigit = a ∧ l.dropWhile Char.isDigit = '-' :: b := by
  unfold dashSplit at h
  rcases hd : l.dropWhile Char.isDigit with _ | ⟨c, r⟩ <;> rw [hd] at h
  · exact absurd h (by simp)
  · have h' : (if c = '-' then some (l.takeWhile Char.isDigit, r) else none) = some (a, b) := h
    by_cases hc : c = '-'
    · subst hc
      rw [if_pos rfl] at h'
      simp only [Option.some.injEq, Prod.mk.injEq] at h'
      exact ⟨h'.1, by rw [h'.2]⟩
    · rw [if_neg hc] at h'
      exact absurd h' (by simp)

theorem floatParse_not_numChar {l : Str} {c : Char} (hc : c ∈ l) (hnc : isNumChar c = false) :
    floatParse l = none := by
  unfold floatParse
  rw [if_neg]
  intro hcond
  have := List.all_eq_true.mp hcond.2.1 c hc
  rw [hnc] at this
  exact absurd this (by simp)

theorem to_numeric_cons (c0 : Char) (r : Str) :
    to_numeric (some (c0 :: r)) =
      if c0 = '-' then (floatParse r).map (fun q => -q)
      else if c0 = '+' then floatParse r
      else floatParse (c0 :: r) := rfl

theorem isDigit_ne_dash {c : Char} (h : c.isDigit = true) : c ≠ '-' := by
  intro hc
  subst hc
  exact absurd h (by decide)

theorem isDigit_ne_plus {c : Char} (h : c.isDigit = true) : c ≠ '+' := by
  intro hc
  subst hc
  exact absurd h (by decide)

/-- A string the DMS regex matches starts with a digit and contains a
hyphen, so `pd.to_numeric` coerces it to missing. -/
theorem to_numeric_of_dmsMatch {l : Str} {d m s : Nat} {dir : Option Char}
    (h : dmsMatch l = some (d, m, s, dir)) : to_numeric (some l) = none := by
  unfold dmsMatch at h
  rcases Option.bind_eq_some.mp h with ⟨p1, hp1, h2⟩
  rcases Option.bind_eq_some.mp h2 with ⟨p2, hp2, h3⟩
  simp only [] at h3
  have hd1ne : p1.1 ≠ [] := by
    intro hnil
    rw [if_pos (Or.inl hnil)] at h3
    exact absurd h3 (by simp)
  obtain ⟨htake, hdrop⟩ := dashSplit_inv hp1
  have hl : l = p1.1 ++ '-' :: p1.2 := by
    conv_lhs => rw [← List.takeWhile_append_dropWhile Char.isDigit l]
    rw [htake, hdrop]
  rcases hp : p1.1 with _ | ⟨c0, cs⟩
  · exact absurd hp hd1ne
  · have hc0 : c0.isDigit = true := by
      have hmem : c0 ∈ l.takeWhile Char.isDigit := by
        rw [htake, hp]
        exact List.mem_cons_self _ _
      exact List.mem_takeWhile_imp hmem
    have hdash : '-' ∈ c0 :: (cs ++ '-' :: p1.2) := by
      refine List.mem_cons_of_mem _ ?_
      exact List.mem_append.mpr (Or.inr (List.mem_cons_self _ _))
    have hl2 : l = c0 :: (cs ++ '-' :: p1.2) := by
      rw [hl, hp]
      rfl
    rw [hl2, to_numeric_cons, if_neg (isDigit_ne_dash hc0), if_neg (isDigit_ne_plus hc0)]
    exact floatParse_not_numChar hdash (by decide)

/-- Unfolding `dms_to_decimal` through a successful regex match. -/
theorem dms_to_decimal_eq {l : Str} {d m s : Nat} {dir : Option Char}
    (h : dmsMatch l = some (d, m, s, dir)) :
    dms_to_decimal (some l) =
      some (if dir = some 'S' ∨ dir = some 'W' then -(dmsRat d m s) else dmsRat d m s) := by
  have hstep : dms_to_decimal (some l) =
      (match dmsMatch l with
        | none => none
        | some (d, m, s, dir) =>
          let dec := dmsRat d m s
          some (if dir = some 'S' ∨ dir = some 'W' then -dec else dec)) := rfl
  rw [hstep, h]

/-- The DMS string `⟨d⟩-⟨m⟩-⟨s⟩⟨hemisphere⟩` with integer groups, used to
state the amended C3. -/
def dmsStr (d m s : Nat) (h : Option Char) : Str :=
  natToChars d ++ '-' :: (natToChars m ++ '-' :: (natToChars s ++ h.toList))

theorem dmsMatch_build (d m s : Nat) (h : Option Char)
    (hh : ∀ c, h = some c → (c = 'N' ∨ c = 'S' ∨ c = 'E' ∨ c = 'W')) :
    dmsMatch (dmsStr d m s h) = some (d, m, s, h) := by
  unfold dmsMatch dmsStr
  rw [dashSplit_append (natToChars_digits d), Option.some_bind,
    dashSplit_append (natToChars_digits m), Option.some_bind]
  simp only []
  have hnonempty : ¬(natToChars d = [] ∨ natToChars m = [] ∨
      (natToChars s ++ h.toList).takeWhile Char.isDigit = []) := by
    intro hcon
    rcases hcon with hcon | hcon | hcon
    · exact natToChars_ne_nil d hcon
    · exact natToChars_ne_nil m hcon
    · rcases h with _ | c
      · rw [Option.toList, List.append_nil, takeWhile_all _ (natToChars_digits s)] at hcon
        exact natToChars_ne_nil s hcon
      · have hcd : c.isDigit = false := by
          rcases hh c rfl with rfl | rfl | rfl | rfl <;> decide
        rw [Option.toList, takeWhile_append_stop _ _ _ (natToChars_digits s) hcd] at hcon
        exact natToChars_ne_nil s hcon
  rw [if_neg hnonempty]
  rcases h with _ | c
  · rw [Option.toList, List.append_nil, takeWhile_all _ (natToChars_digits s),
      dropWhile_all _ (natToChars_digits s)]
    simp [digitsVal_natToChars]
  · have hcd : c.isDigit = false := by
      rcases hh c rfl with rfl | rfl | rfl | rfl <;> decide
    have hcw : c.isWhitespace = false := by
      rcases hh c rfl with rfl | rfl | rfl | rfl <;> decide
    rw [Option.toList, takeWhile_append_stop _ _ _ (natToChars_digits s) hcd,
      dropWhile_append_stop _ _ _ (natToChars_digits s) hcd]
    simp only [List.dropWhile_cons, hcw, Bool.false_eq_true, if_false, List.head?_cons]
    rw [if_pos (hh c rfl)]
    simp [digitsVal_natToChars]

/-! ## Year order and the Explorer's depth filter -/

theorem clean_years_pairwise (rows : List RawRow) :
    List.Pairwise (fun a b : Int => a ≤ b)
      ((clean_shipwreck_dataset rows).filterMap CleanRow.year) := by
  have hs : List.Pairwise rowLE (clean_shipwreck_dataset rows) := clean_sorted rows
  refine List.Pairwise.filterMap CleanRow.year ?_ hs
  intro a b hab x hx y hy
  rw [Option.mem_def] at hx hy
  have hab2 : yearLE (some x) (some y) = true := by
    rw [← hx, ← hy]
    exact hab
  simpa [yearLE] using hab2

theorem depthCeilingFilter_mem {data : List CleanRow} {maxDepth : ℚ} {r : CleanRow} :
    r ∈ depthCeilingFilter data maxDepth ↔
      r ∈ data ∧ ∃ d, r.draft = some d ∧ d ≤ maxDepth := by
  unfold depthCeilingFilter
  rw [List.mem_filter]
  constructor
  · rintro ⟨hin, hp⟩
    refine ⟨hin, ?_⟩
    rcases hd : r.draft with _ | d
    · rw [hd] at hp
      simp at hp
    · rw [hd] at hp
      simp at hp
      exact ⟨d, rfl, hp⟩
  · rintro ⟨hin, d, hd, hle⟩
    refine ⟨hin, ?_⟩
    rw [hd]
    simpa using hle

/-! ## Concrete fixtures -/

/-- A raw record whose draft cell is empty, so its cleaned draft is
missing. -/
def rawNoDraft : RawRow :=
  { shipName := some ("Alpha".toList), vesselType := none, causeOfLoss := none, master := none
    year := some 1900, dateLost := none, yearBuilt := none, length := none, beam := none
    draft := none, grossTonnage := none, netTonnage := none, crew := none, pass := none
    livesLost := none, shipValue := none, cargoValue := none
    latitude := none, longitude := none, latitudeBackup := none, longitudeBackup := none }

/-- A raw record with the primary latitude missing and a DMS string in
the backup latitude field. -/
def rawBackupDMS : RawRow :=
  { shipName := some ("Beta".toList), vesselType := none, causeOfLoss := none, master := none
    year := some 1900, dateLost := none, yearBuilt := none, length := none, beam := none
    draft := some ("10".toList), grossTonnage := none, netTonnage := none, crew := none
    pass := none, livesLost := none, shipValue := none, cargoValue := none
    latitude := none, longitude := none
    latitudeBackup := some ("39-30-00N".toList), longitudeBackup := none }

/-- A raw record whose draft `"0.00001"` cleans to `1e-5`, which
`to_csv` writes in scientific notation. -/
def rawTinyDraft : RawRow :=
  { shipName := some ("Gamma".toList), vesselType := none, causeOfLoss := none, master := none
    year := some 1900, dateLost := none, yearBuilt := none, length := none, beam := none
    draft := some ("0.00001".toList), grossTonnage := none, netTonnage := none, crew := none
    pass := none, livesLost := none, shipValue := none, cargoValue := none
    latitude := none, longitude := none, latitudeBackup := none, longitudeBackup := none }

/-- A raw record whose ship name `" null"` strips to `"null"`, a string
the re-reading `read_csv` converts back to missing. -/
def rawNullName : RawRow :=
  { shipName := some (" null".toList), vesselType := none, causeOfLoss := none, master := none
    year := some 1900, dateLost := none, yearBuilt := none, length := none, beam := none
    draft := some ("10".toList), grossTonnage := none, netTonnage := none, crew := none
    pass := none, livesLost := none, shipValue := none, cargoValue := none
    latitude := none, longitude := none, latitudeBackup := none, longitudeBackup := none }

/-! ## The claims -/

/-- Claim C1, counterexample: the cleaned record of `rawNoDraft` has a
missing draft, yet `clean_shipwreck_dataset [rawNoDraft]` is empty — a
record with a missing draft is dropped, because in pandas `NaN <= 81`
is `False`; this refutes "records with a missing draft are retained in
the output". -/
theorem C1_counterexample :
    (cleanRow rawNoDraft).draft = none ∧ clean_shipwreck_dataset [rawNoDraft] = [] :=
  ⟨rfl, by decide⟩

/-- Claim C1 (amended): a record is retained by the Cleaner iff it is a
cleaned input row whose DRAFT is present and at most 81; records with a
missing draft are dropped by the depth filter. -/
theorem C1_depth_filter (rows : List RawRow) (r : CleanRow) :
    r ∈ clean_shipwreck_dataset rows ↔
      r ∈ rows.map cleanRow ∧ ∃ d, r.draft = some d ∧ d ≤ 81 := by
  rw [mem_clean, draftOk_iff]

/-- Claim C2, counterexample: with the primary latitude missing and
backup `"39-30-00N"` — a string the DMS parser itself reads as 39.5 —
the Cleaner resolves `LAT` to missing, not 39.5, because after
`combine_first` the DMS text is fed to `pd.to_numeric(errors="coerce")`,
which coerces it to `NaN`. -/
theorem C2_counterexample :
    rawBackupDMS.latitude = none ∧
    rawBackupDMS.latitudeBackup = some ("39-30-00N".toList) ∧
    dms_to_decimal (some ("39-30-00N".toList)) = some (mkRat 79 2) ∧
    (cleanRow rawBackupDMS).lat = none :=
  ⟨rfl, rfl, by decide, by decide⟩

/-- Claim C2 (amended): when the primary coordinate is missing, the
resolved LAT (resp. LON) is the numeric coercion of the backup cell,
and that coercion sends every string matching the DMS pattern to
missing — so a DMS backup yields a missing coordinate, not its decimal
value.  The Explorer's derived `lat` column uses the primary field
alone, so it too is missing whenever the primary is. -/
theorem C2_lat_fallback :
    (∀ r : RawRow, textCell r.latitude = none →
      (cleanRow r).lat = to_numeric (textCell r.latitudeBackup)) ∧
    (∀ r : RawRow, textCell r.longitude = none →
      (cleanRow r).lon = to_numeric (textCell r.longitudeBackup)) ∧
    (∀ (l : Str) (d m s : Nat) (dir : Option Char),
      dmsMatch l = some (d, m, s, dir) → to_numeric (some l) = none) ∧
    (∀ r : CleanRow, r.latitude = none → load_data_lat r = none) := by
  refine ⟨?_, ?_, ?_, ?_⟩
  · intro r h
    show to_numeric (combineFirst (textCell r.latitude) (textCell r.latitudeBackup)) = _
    rw [h]
    rfl
  · intro r h
    show to_numeric (combineFirst (textCell r.longitude) (textCell r.longitudeBackup)) = _
    rw [h]
    rfl
  · intro l d m s dir h
    exact to_numeric_of_dmsMatch h
  · intro r h
    unfold load_data_lat
    rw [h]
    rfl

/-- Witness for `C2_lat_fallback` at the concrete record `rawBackupDMS`
and the concrete DMS backup string `"39-30-00N"`. -/
theorem C2_witness :
    (cleanRow rawBackupDMS).lat = to_numeric (textCell rawBackupDMS.latitudeBackup) ∧
    to_numeric (some ("39-30-00N".toList)) = none :=
  ⟨C2_lat_fallback.1 rawBackupDMS (by decide),
   C2_lat_fallback.2.2.1 _ 39 30 0 (some 'N') (by decide)⟩

/-- Claim C3, counterexample: on `"10-30-30.5W"` — fractional seconds
with hemisphere W — the claim demands `-(10 + 30/60 + 30.5/3600)`, but
the regex captures only the integer prefix `10-30-30` and never reaches
the hemisphere letter, so the parser returns `+(10 + 30/60 + 30/3600)`
instead. -/
theorem C3_counterexample :
    dms_to_decimal (some ("10-30-30.5W".toList)) = some (mkRat 1261 120) ∧
    mkRat 1261 120 ≠ -(mkRat 75661 7200) ∧
    (mkRat 1261 120 : ℚ) = (10 : ℚ) + 30 / 60 + 30 / 3600 ∧
    (mkRat 75661 7200 : ℚ) = (10 : ℚ) + 30 / 60 + (30 + 1 / 2) / 3600 := by
  refine ⟨by decide, by decide, ?_, ?_⟩
  · rw [Rat.mkRat_eq_divInt, Rat.divInt_eq_div]
    norm_num
  · rw [Rat.mkRat_eq_divInt, Rat.divInt_eq_div]
    norm_num

/-- Claim C3 (amended): for integer degree, minute and second groups
with an optional hemisphere letter, the parser returns
`d + m/60 + s/3600`, negated exactly for S and W.  (Fractional seconds
are not parsed: the regex stops at the decimal point — see
`C3_counterexample`.) -/
theorem C3_integer_dms (d m s : Nat) :
    dms_to_decimal (some (dmsStr d m s none))
      = some ((d : ℚ) + (m : ℚ) / 60 + (s : ℚ) / 3600) ∧
    dms_to_decimal (some (dmsStr d m s (some 'N')))
      = some ((d : ℚ) + (m : ℚ) / 60 + (s : ℚ) / 3600) ∧
    dms_to_decimal (some (dmsStr d m s (some 'E')))
      = some ((d : ℚ) + (m : ℚ) / 60 + (s : ℚ) / 3600) ∧
    dms_to_decimal (some (dmsStr d m s (some 'S')))
      = some (-((d : ℚ) + (m : ℚ) / 60 + (s : ℚ) / 3600)) ∧
    dms_to_decimal (some (dmsStr d m s (some 'W')))
      = some (-((d : ℚ) + (m : ℚ) / 60 + (s : ℚ) / 3600)) := by
  have hN : ∀ c : Char, (some 'N' : Option Char) = some c →
      (c = 'N' ∨ c = 'S' ∨ c = 'E' ∨ c = 'W') := by
    intro c hc
    have := (Option.some_inj.mp hc).symm
    subst this
    decide
  have hE : ∀ c : Char, (some 'E' : Option Char) = some c →
      (c = 'N' ∨ c = 'S' ∨ c = 'E' ∨ c = 'W') := by
    intro c hc
    have := (Option.some_inj.mp hc).symm
    subst this
    decide
  have hS : ∀ c : Char, (some 'S' : Option Char) = some c →
      (c = 'N' ∨ c = 'S' ∨ c = 'E' ∨ c = 'W') := by
    intro c hc
    have := (Option.some_inj.mp hc).symm
    subst this
    decide
  have hW : ∀ c : Char, (some 'W' : Option Char) = some c →
      (c = 'N' ∨ c = 'S' ∨ c = 'E' ∨ c = 'W') := by
    intro c hc
    have := (Option.some_inj.mp hc).symm
    subst this
    decide
  refine ⟨?_, ?_, ?_, ?_, ?_⟩
  · rw [dms_to_decimal_eq (dmsMatch_build d m s none (fun c hc => by cases hc)),
      if_neg (by decide), dmsRat_eq]
  · rw [dms_to_decimal_eq (dmsMatch_build d m s (some 'N') hN), if_neg (by decide), dmsRat_eq]
  · rw [dms_to_decimal_eq (dmsMatch_build d m s (some 'E') hE), if_neg (by decide), dmsRat_eq]
  · rw [dms_to_decimal_eq (dmsMatch_build d m s (some 'S') hS), if_pos (by decide), dmsRat_eq]
  · rw [dms_to_decimal_eq (dmsMatch_build d m s (some 'W') hW), if_pos (by decide), dmsRat_eq]

/-- Claim C4: the DMS parser yields missing on null input and on every
string the regex fails to match; as a total function of the embedding
it raises nothing. -/
theorem C4_unparseable :
    dms_to_decimal none = none ∧
    ∀ l : Str, dmsMatch l = none → dms_to_decimal (some l) = none := by
  refine ⟨rfl, ?_⟩
  intro l h
  have hstep : dms_to_decimal (some l) =
      (match dmsMatch l with
        | none => none
        | some (d, m, s, dir) =>
          let dec := dmsRat d m s
          some (if dir = some 'S' ∨ dir = some 'W' then -dec else dec)) := rfl
  rw [hstep, h]

/-- Witness for `C4_unparseable`: the slash-delimited string
`"39/30/00N"` fails the regex and parses to missing. -/
theorem C4_witness : dms_to_decimal (some ("39/30/00N".toList)) = none :=
  C4_unparseable.2 _ (by decide)

/-- Claim C5: `"1,234.5 tons"` normalizes to 1234.5 and `"unknown"` to
missing; in general the comma-stripped cell is scanned for its first
`[0-9.]` run — no run or an unparseable run gives missing, a parseable
run gives its decimal value. -/
theorem C5_numeric_extraction :
    numericCell (some ("1,234.5 tons".toList)) = some (mkRat 2469 2) ∧
    (mkRat 2469 2 : ℚ) = 1234.5 ∧
    numericCell (some ("unknown".toList)) = none ∧
    (∀ l : Str, extractNum (stripCommas l) = none → numericCell (some l) = none) ∧
    (∀ l e : Str, extractNum (stripCommas l) = some e → floatParse e = none →
      numericCell (some l) = none) ∧
    (∀ (l e : Str) (q : ℚ), extractNum (stripCommas l) = some e → floatParse e = some q →
      numericCell (some l) = some q) := by
  refine ⟨by decide, ?_, by decide, ?_, ?_, ?_⟩
  · rw [Rat.mkRat_eq_divInt, Rat.divInt_eq_div]
    norm_num
  · intro l h
    show (extractNum (stripCommas l)).bind floatParse = none
    rw [h]
    rfl
  · intro l e h hf
    show (extractNum (stripCommas l)).bind floatParse = none
    rw [h, Option.some_bind, hf]
  · intro l e q h hf
    show (extractNum (stripCommas l)).bind floatParse = some q
    rw [h, Option.some_bind, hf]

/-- Witness for `C5_numeric_extraction`: on `"abc 12.5x"` the first
`[0-9.]` run is `"12.5"`, which parses to 12.5. -/
theorem C5_witness : numericCell (some ("abc 12.5x".toList)) = some (mkRat 25 2) :=
  C5_numeric_extraction.2.2.2.2.2 ("abc 12.5x".toList) ("12.5".toList) (mkRat 25 2)
    (by decide) (by decide)

/-- Claim C6: no two rows of the Cleaner's output are identical across
all columns — `drop_duplicates` removes exact duplicates and the year
sort only permutes. -/
theorem C6_no_duplicates (rows : List RawRow) : (clean_shipwreck_dataset rows).Nodup :=
  clean_nodup rows

/-- Claim C7: the non-missing `YEAR` values of the Cleaner's output
appear in non-decreasing order. -/
theorem C7_year_order (rows : List RawRow) :
    List.Pairwise (fun a b : Int => a ≤ b)
      ((clean_shipwreck_dataset rows).filterMap CleanRow.year) :=
  clean_years_pairwise rows

/-- Claim C8, counterexample: re-cleaning the Cleaner's own CSV output
is not the identity.  The draft `"0.00001"` cleans to `1e-5`, which
`to_csv` writes as `"1e-05"`; the re-clean's `[0-9.]+` extraction keeps
only `"1"`, so the draft becomes `1.0`.  The ship name `" null"` strips
to `"null"`, which the re-reading `read_csv` converts back to missing.
In both cases the re-cleaned table differs from the original. -/
theorem C8_counterexample :
    (cleanRow rawTinyDraft).draft = some (mkRat 1 100000) ∧
    printNum (mkRat 1 100000) = "1e-05".toList ∧
    clean_shipwreck_dataset ((clean_shipwreck_dataset [rawTinyDraft]).map printRow)
      ≠ clean_shipwreck_dataset [rawTinyDraft] ∧
    (cleanRow rawNullName).shipName = some ("null".toList) ∧
    clean_shipwreck_dataset ((clean_shipwreck_dataset [rawNullName]).map printRow)
      ≠ clean_shipwreck_dataset [rawNullName] :=
  ⟨by decide, by decide, by decide, by decide, by decide⟩

/-- Claim C8 (amended): writing the cleaned table to CSV and cleaning
it again returns the same list of rows — no row dropped, none
duplicated, the order unchanged — provided every numeric cell of the
output is one `to_csv` writes as a plain decimal (zero or a value in
`[1e-4, 1e16)`) and no text cell is a `read_csv` default NA marker.
Outside those ranges idempotence fails, see `C8_counterexample`. -/
theorem C8_idempotent_plain (rows : List RawRow)
    (h : ∀ r ∈ clean_shipwreck_dataset rows, RowPrintsPlainly r) :
    clean_shipwreck_dataset ((clean_shipwreck_dataset rows).map printRow)
      = clean_shipwreck_dataset rows :=
  clean_reclean rows h

/-- Witness for `C8_idempotent_plain` at the one-row table
`[rawBackupDMS]`, whose cleaned cells are all in the plain range. -/
theorem C8_witness :
    (∀ r ∈ clean_shipwreck_dataset [rawBackupDMS], RowPrintsPlainly r) ∧
    clean_shipwreck_dataset ((clean_shipwreck_dataset [rawBackupDMS]).map printRow)
      = clean_shipwreck_dataset [rawBackupDMS] :=
  ⟨by decide, C8_idempotent_plain [rawBackupDMS] (by decide)⟩

/-- Claim C9: summary statistics of an empty filtered table: count 0,
min and max year both missing. -/
theorem C9_empty_stats : compute_summary_stats [] = (0, none, none) := rfl

/-- Claim C10: the Explorer's depth-ceiling filter retains exactly the
rows whose draft is present and at most the chosen maximum; rows with a
missing draft are always excluded (pandas `NaN <= max` is `False`). -/
theorem C10_depth_ceiling (data : List CleanRow) (maxDepth : ℚ) (r : CleanRow) :
    r ∈ depthCeilingFilter data maxDepth ↔
      r ∈ data ∧ ∃ d, r.draft = some d ∧ d ≤ maxDepth :=
  depthCeilingFilter_mem

end Shipwreck
